import Mathlib

/-!
Verification development for the SlurmJobManager repository.

Shallow embedding of `src/job.py` and `src/job_manager.py` (the orchestration
core), plus a spec-modelled capacity controller for the resize channel
(`src/resize_pool.py` is only the requesting tool; the manager-side handler is
absent from the sources).

The external backend (`sbatch` / `squeue` / `sacct` / `scancel` subprocess
calls) is modelled as oracle inputs to each operation: a submission outcome
(`Option String`, the backend-assigned id on success), command results for the
two polling commands, and a Boolean cancel outcome.  Wall-clock time is a `Nat`
parameter.  Logging / printing code is pure output and is omitted.
-/

namespace SJM

/-- `JobStatus` enum from `src/job.py`. -/
inductive JobStatus where
  | PENDING
  | RUNNING
  | COMPLETED
  | FAILED
  | CANCELLED
deriving DecidableEq, Repr

/-- The lifecycle-relevant fields of `Job` (`src/job.py`).  The resource-spec
fields (`partition`, `num_gpus`, `memory`, ...) are carried opaquely by
`script_path`-like payloads and never influence the control logic, so only the
fields the manager reads or writes are kept. -/
structure Job where
  job_id : String
  script_path : String
  slurm_id : Option String
  status : JobStatus
  start_time : Option Nat
  end_time : Option Nat
deriving DecidableEq, Repr

/-- `Job.__init__`: a fresh record is PENDING with no backend handle. -/
def Job.new (job_id script_path : String) : Job :=
  { job_id := job_id, script_path := script_path, slurm_id := none,
    status := .PENDING, start_time := none, end_time := none }

/-- Result of a shell command (`subprocess.run`): return code and stdout. -/
structure CmdResult where
  returncode : Int
  stdout : String
deriving DecidableEq, Repr

/-- Split a character list at whitespace runs, accumulating the current token
reversed (helper for `pySplit`; written by structural recursion so it
evaluates inside the kernel). -/
def splitWsAux : List Char → List Char → List String
  | [], acc => if acc = [] then [] else [String.mk acc.reverse]
  | c :: cs, acc =>
      if c.isWhitespace then
        if acc = [] then splitWsAux cs []
        else String.mk acc.reverse :: splitWsAux cs []
      else splitWsAux cs (c :: acc)

/-- Python's `str.split()`: split on whitespace runs, dropping empty pieces. -/
def pySplit (s : String) : List String :=
  splitWsAux s.data []

/-- Python's `str.strip()` restricted to what the code tests (`stdout.strip()`
is only ever checked for truthiness): we keep the whole test as
`pySplit s ≠ []`, which agrees with `bool(s.strip())` on whitespace. -/
def pyStripNonEmpty (s : String) : Bool :=
  pySplit s ≠ []

/-- `Job.submit` (`src/job.py` lines 188-220).  `res = some sid` models a
successful `sbatch` call whose stripped stdout's last token is `sid`;
`res = none` models `subprocess.CalledProcessError` (the `check=True` path).
On success the job becomes RUNNING with the handle and `start_time` set; on
failure the job becomes FAILED and `submit` returns `false`. -/
def Job.submit (j : Job) (now : Nat) (res : Option String) : Bool × Job :=
  match res with
  | some sid =>
      (true, { j with slurm_id := some sid, status := .RUNNING,
                      start_time := some now })
  | none => (false, { j with status := .FAILED })

/-- `Job.check_status` (`src/job.py` lines 222-262).
`squeueRes` is the `squeue -j <id> -h` result, `sacctRes` the
`sacct -j <id> -o State -n` result.  The `except CalledProcessError` clause in
the source is dead (neither `subprocess.run` call passes `check=True`), so the
only failure path is the uncaught `IndexError` raised by
`sacct_result.stdout.strip().split()[0]` on empty output, modelled as
`.error "IndexError"`. -/
def Job.check_status (j : Job) (now : Nat) (squeueRes sacctRes : CmdResult) :
    Except String (JobStatus × Job) :=
  match j.slurm_id with
  | none => .ok (j.status, j)
  | some _ =>
      if squeueRes.returncode = 0 ∧ pyStripNonEmpty squeueRes.stdout then
        .ok (.RUNNING, { j with status := .RUNNING })
      else
        match pySplit sacctRes.stdout with
        | [] => .error "IndexError"
        | state :: _ =>
            if state = "COMPLETED" then
              let j' := { j with status := .COMPLETED,
                                 end_time := if j.end_time = none then some now
                                             else j.end_time }
              .ok (.COMPLETED, j')
            else if state = "FAILED" ∨ state = "TIMEOUT" ∨
                    state = "OUT_OF_MEMORY" then
              let j' := { j with status := .FAILED,
                                 end_time := if j.end_time = none then some now
                                             else j.end_time }
              .ok (.FAILED, j')
            else
              .ok (j.status, j)

/-- `Job.cancel` (`src/job.py` lines 264-277).  `backendOk` models whether the
`scancel` call (run with `check=True`) succeeds.  With no backend handle the
method returns `True` touching nothing; otherwise on backend success it sets
CANCELLED and `end_time`, on backend failure it returns `False` leaving the
record unchanged. -/
def Job.cancel (j : Job) (now : Nat) (backendOk : Bool) : Bool × Job :=
  match j.slurm_id with
  | none => (true, j)
  | some _ =>
      if backendOk then
        (true, { j with status := .CANCELLED, end_time := some now })
      else (false, j)

/-! ### Insertion-ordered dictionaries

Python `dict`s preserve insertion order; they are embedded as association
lists where writing an existing key updates it in place and writing a new key
appends. -/

namespace alist

variable {α : Type}

/-- `k in d`. -/
def contains (l : List (String × α)) (k : String) : Bool :=
  l.any (fun p => p.1 = k)

/-- `d.get(k)` / `d[k]` lookup. -/
def get (l : List (String × α)) (k : String) : Option α :=
  (l.find? (fun p => p.1 = k)).map (fun p => p.2)

/-- `d[k] = v`: update in place if present, else append. -/
def set (l : List (String × α)) (k : String) (v : α) : List (String × α) :=
  if contains l k then
    l.map (fun p => if p.1 = k then (k, v) else p)
  else l ++ [(k, v)]

/-- `del d[k]` (total: deleting an absent key is a no-op; the source only
deletes keys it has just looked up). -/
def erase (l : List (String × α)) (k : String) : List (String × α) :=
  l.filter (fun p => p.1 ≠ k)

end alist

/- `retry_counts` is a `dict` from job id to count; same embedding. -/
namespace nlist

def get (l : List (String × Nat)) (k : String) : Option Nat :=
  alist.get l k

def set (l : List (String × Nat)) (k : String) (v : Nat) : List (String × Nat) :=
  alist.set l k v

def erase (l : List (String × Nat)) (k : String) : List (String × Nat) :=
  alist.erase l k

end nlist

/-- The mutable collections and configuration of `JobManager`
(`src/job_manager.py` lines 18-62).  `check_interval`, `print_interval`,
`verbose`, `log_file` and `daemon` only drive sleeping and logging and are
omitted.  `pending_jobs` is the deque with its head at the left (front). -/
structure JobManager where
  max_concurrent_jobs : Nat
  max_retries : Nat
  active_jobs : List (String × Job)
  pending_jobs : List Job
  completed_jobs : List (String × Job)
  failed_jobs : List (String × Job)
  retry_counts : List (String × Nat)
deriving DecidableEq, Repr

/-- `JobManager.__init__`: all collections start empty. -/
def JobManager.init (max_concurrent_jobs max_retries : Nat) : JobManager :=
  { max_concurrent_jobs := max_concurrent_jobs, max_retries := max_retries,
    active_jobs := [], pending_jobs := [], completed_jobs := [],
    failed_jobs := [], retry_counts := [] }

/-- `JobManager._submit_job` (lines 93-101): on backend success record the job
in `active_jobs`; on failure return `false` with the manager unchanged.
`job.submit()` mutates the shared `Job` object in Python, so the post-submit
record is returned alongside the Boolean (callers that keep a reference to the
job — the fill phase — see the mutation). -/
def JobManager.submit_job (m : JobManager) (job : Job) (now : Nat)
    (res : Option String) : (Bool × Job) × JobManager :=
  let r := job.submit now res
  if r.1 then
    ((true, r.2),
     { m with active_jobs := alist.set m.active_jobs r.2.job_id r.2 })
  else ((false, r.2), m)

/-- `JobManager.add_job` (lines 64-91).  Refuses an id present in
`active_jobs` or `completed_jobs`; otherwise builds a fresh `Job` and either
submits it immediately (when below capacity) or appends it to the backlog.
`submitRes` is the backend's answer for the immediate-submission path. -/
def JobManager.add_job (m : JobManager) (job_id script_path : String)
    (now : Nat) (submitRes : Option String) : Bool × JobManager :=
  if alist.contains m.active_jobs job_id ∨
     alist.contains m.completed_jobs job_id then
    (false, m)
  else
    let job := Job.new job_id script_path
    if m.active_jobs.length < m.max_concurrent_jobs then
      let s := m.submit_job job now submitRes
      (s.1.1, s.2)
    else
      (true, { m with pending_jobs := m.pending_jobs ++ [job] })

/-- `JobManager._handle_completed_job` (lines 103-112). -/
def JobManager.handle_completed_job (m : JobManager) (job : Job) : JobManager :=
  { m with completed_jobs := alist.set m.completed_jobs job.job_id job,
           active_jobs := alist.erase m.active_jobs job.job_id,
           retry_counts := nlist.erase m.retry_counts job.job_id }

/-- `JobManager._handle_failed_job` (lines 114-131): below `max_retries` the
count is bumped and the job re-enters the backlog at the FRONT
(`appendleft`); otherwise the job moves to `failed_jobs` and its counter is
discarded.  Either way it leaves `active_jobs`. -/
def JobManager.handle_failed_job (m : JobManager) (job : Job) : JobManager :=
  let retry_count := (nlist.get m.retry_counts job.job_id).getD 0
  let m' :=
    if retry_count < m.max_retries then
      { m with retry_counts := nlist.set m.retry_counts job.job_id
                                 (retry_count + 1),
               pending_jobs := job :: m.pending_jobs }
    else
      { m with failed_jobs := alist.set m.failed_jobs job.job_id job,
               retry_counts := nlist.erase m.retry_counts job.job_id }
  { m' with active_jobs := alist.erase m'.active_jobs job.job_id }

/-- One backend answer per polled job: the `squeue` and `sacct` results. -/
def PollOracle : Type := String → CmdResult × CmdResult

/-- Backend submission answers for the fill phase, keyed by job id. -/
def SubmitOracle : Type := String → Option String

/-- The poll phase of `update_status` (lines 140-146): iterate over a snapshot
of `active_jobs.values()`.  In Python `job.check_status()` mutates the shared
`Job` object, which is visible through the dict; here the updated record is
written back explicitly before the handlers run.  An uncaught exception from
`check_status` aborts the loop at that point, carrying the state reached so
far (`some err`). -/
def poll_loop (now : Nat) (polls : PollOracle) :
    JobManager → List Job → JobManager × Option String
  | m, [] => (m, none)
  | m, job :: rest =>
      match job.check_status now (polls job.job_id).1 (polls job.job_id).2 with
      | .error e => (m, some e)
      | .ok (st, j) =>
          let m1 := { m with active_jobs := alist.set m.active_jobs j.job_id j }
          if st = .COMPLETED then
            poll_loop now polls (m1.handle_completed_job j) rest
          else if st = .FAILED then
            poll_loop now polls (m1.handle_failed_job j) rest
          else
            poll_loop now polls m1 rest

/-- The fill phase of `update_status` (lines 151-154):
`while len(active) < max and pending: popleft; submit or record failure`.
Each iteration consumes one backlog element, so `fuel` is run at the initial
backlog length.  Also returns the jobs popped and handed to `_submit_job`, in
order (the observable sequence of submission attempts). -/
def fill_loop (now : Nat) (submits : SubmitOracle) :
    Nat → JobManager → JobManager × List Job
  | 0, m => (m, [])
  | fuel + 1, m =>
      if m.active_jobs.length < m.max_concurrent_jobs then
        match m.pending_jobs with
        | [] => (m, [])
        | next_job :: rest =>
            let m1 := { m with pending_jobs := rest }
            let r := m1.submit_job next_job now (submits next_job.job_id)
            let m2 :=
              if r.1.1 then r.2
              else { r.2 with
                       failed_jobs := alist.set r.2.failed_jobs
                                        r.1.2.job_id r.1.2 }
            let rec' := fill_loop now submits fuel m2
            (rec'.1, next_job :: rec'.2)
      else (m, [])

/-- `JobManager.update_status` (lines 133-159): poll phase then fill phase
(the periodic `_print_status` call is logging only).  `some err` means the
Python method raised at that point, with the partially-updated state. -/
def JobManager.update_status (m : JobManager) (now : Nat) (polls : PollOracle)
    (submits : SubmitOracle) : JobManager × Option String :=
  let pr := poll_loop now polls m (m.active_jobs.map (fun p => p.2))
  match pr.2 with
  | some e => (pr.1, some e)
  | none =>
      ((fill_loop now submits pr.1.pending_jobs.length pr.1).1, none)

/-- `JobManager.cancel_all_jobs` (lines 219-225): call `cancel()` on every
active job (return values ignored, so a failed backend cancel neither stops
the loop nor changes that job), then `pending_jobs.clear()`.  Active entries
stay in `active_jobs`; cleared backlog jobs are simply dropped. -/
def JobManager.cancel_all_jobs (m : JobManager) (now : Nat)
    (cancelOks : String → Bool) : JobManager :=
  { m with
      active_jobs := m.active_jobs.map
        (fun p => (p.1, (p.2.cancel now (cancelOks p.1)).2)),
      pending_jobs := [] }

/-- `JobManager.get_job_status` (lines 227-237): consult `active_jobs`, then
`completed_jobs`, then `failed_jobs`; the backlog is never consulted. -/
def JobManager.get_job_status (m : JobManager) (job_id : String) :
    Option JobStatus :=
  match alist.get m.active_jobs job_id with
  | some j => some j.status
  | none =>
      match alist.get m.completed_jobs job_id with
      | some j => some j.status
      | none =>
          match alist.get m.failed_jobs job_id with
          | some j => some j.status
          | none => none

/-! ### Traces

Observation points are the states after any sequence of `add_job`,
`update_status` and `cancel_all_jobs` calls starting from a fresh manager. -/

/-- One externally triggered operation, with its backend oracle inputs. -/
inductive Op where
  | add (job_id script_path : String) (now : Nat) (submitRes : Option String)
  | tick (now : Nat) (polls : PollOracle) (submits : SubmitOracle)
  | cancelAll (now : Nat) (cancelOks : String → Bool)

/-- Apply one operation (the Boolean result of `add_job` and the raised-error
flag of `update_status` are dropped; the state reached is what matters for the
invariants). -/
def step (m : JobManager) : Op → JobManager
  | .add job_id sp now res => (m.add_job job_id sp now res).2
  | .tick now polls submits => (m.update_status now polls submits).1
  | .cancelAll now oks => m.cancel_all_jobs now oks

/-- Run a sequence of operations. -/
def runOps : JobManager → List Op → JobManager
  | m, [] => m
  | m, op :: rest => runOps (step m op) rest

/-! ### Observation predicates -/

/-- Number of entries under key `id` in a dict. -/
def keyCount {α : Type} (l : List (String × α)) (id : String) : Nat :=
  (l.filter (fun p => p.1 = id)).length

/-- Number of backlog jobs with identifier `id`. -/
def pendCount (l : List Job) (id : String) : Nat :=
  (l.filter (fun j => j.job_id = id)).length

/-- How many of the four collections {backlog, active, completed, failed}
hold identifier `id` (counting multiplicity inside each). -/
def idCount (m : JobManager) (id : String) : Nat :=
  keyCount m.active_jobs id + pendCount m.pending_jobs id +
    keyCount m.completed_jobs id + keyCount m.failed_jobs id

/-- Every dict value records the key it is filed under (true by construction
in the source: jobs are always stored under their own `job_id`). -/
def keysMatch (l : List (String × Job)) : Prop :=
  ∀ p ∈ l, p.2.job_id = p.1

/-- The identifiers passed to `add_job` along a trace, in order. -/
def addedIds : List Op → List String
  | [] => []
  | .add job_id _ _ _ :: rest => job_id :: addedIds rest
  | _ :: rest => addedIds rest

/-- A trace is *good* (relative to the ids already added) when every `add_job`
uses a previously unused identifier and its immediate submission, if
attempted, succeeds, and `cancel_all_jobs` never runs.  These are exactly the
provisos under which the exactly-one-collection invariant survives. -/
def goodTrace : List String → List Op → Prop
  | _, [] => True
  | seen, .add job_id _ _ res :: rest =>
      job_id ∉ seen ∧ res.isSome = true ∧ goodTrace (job_id :: seen) rest
  | seen, .tick _ _ _ :: rest => goodTrace seen rest
  | _, .cancelAll _ _ :: _ => False

/-- Well-formedness of the active dictionary: every job is filed under its
own id and keys are distinct (automatic for a Python dict). -/
def WFactive (m : JobManager) : Prop :=
  keysMatch m.active_jobs ∧ (m.active_jobs.map Prod.fst).Nodup

/-- The retry-budget invariant: every recorded retry count is at most
`max_retries`. -/
def RInv (m : JobManager) : Prop :=
  ∀ id, (nlist.get m.retry_counts id).getD 0 ≤ m.max_retries

/-- The exactly-one-collection invariant relative to the set of accepted
identifiers. -/
def ExactlyOne (m : JobManager) (seen : List String) : Prop :=
  (∀ id, idCount m id = if id ∈ seen then 1 else 0) ∧ keysMatch m.active_jobs

/-- The ids-added-so-far list after running a trace (`goodTrace`'s
accumulator). -/
def seenAfter : List String → List Op → List String
  | seen, [] => seen
  | seen, .add job_id _ _ _ :: rest => seenAfter (job_id :: seen) rest
  | seen, _ :: rest => seenAfter seen rest

/-! ### Spec-modelled capacity controller

`src/resize_pool.py` is only the requesting tool (it writes the requested size
to `/tmp/slurm_pool_size` and signals the manager with SIGUSR1), and
`src/example.py` calls `manager.resize_pool(...)`; the manager-side handler
that receives the request and applies it is absent from the sources.  It is
modelled here from the spec. -/

/-- Modelled from the spec: the PoolCapacityController state — the live
manager plus the single-slot staged capacity request (§4.5: "the request is
staged and applied atomically at the start of the next tick's capacity
phase").  The manager-side `JobManager.resize_pool` / SIGUSR1 handler is
missing from `src/`. -/
structure ResizableManager where
  mgr : JobManager
  staged_capacity : Option Nat
deriving DecidableEq, Repr

/-- Modelled from the spec: an external actor requests a new capacity; a
non-positive value is "rejected at the boundary, control loop state
untouched" (§7), a positive one is staged. -/
def request_resize (r : ResizableManager) (new_size : Int) :
    Bool × ResizableManager :=
  if new_size ≤ 0 then (false, r)
  else (true, { r with staged_capacity := some new_size.toNat })

/-- Modelled from the spec: the capacity phase at the start of a tick applies
any staged request to the live capacity and clears the slot (§4.3 step 3);
"shrinking never preempts already-ACTIVE jobs". -/
def capacity_phase (r : ResizableManager) : ResizableManager :=
  match r.staged_capacity with
  | some c =>
      { mgr := { r.mgr with max_concurrent_jobs := c }, staged_capacity := none }
  | none => r

/-! ### Concrete states used to settle individual claims -/

/-- Oracle answering every poll with "job left the queue, sacct says `st`". -/
def donePoll (st : String) : PollOracle :=
  fun _ => (⟨1, ""⟩, ⟨0, " " ++ st ++ "\n"⟩)

/-- A job as it looks after completing a run: terminal COMPLETED, with a
backend handle. -/
def doneJob : Job :=
  { job_id := "J", script_path := "j.py", slurm_id := some "123",
    status := .COMPLETED, start_time := some 1, end_time := some 5 }

/-- An active (RUNNING) job with backend handle `77`. -/
def runningJob (id : String) : Job :=
  { job_id := id, script_path := id ++ ".py", slurm_id := some "77",
    status := .RUNNING, start_time := some 1, end_time := none }

/-- Manager state for claim C7's scenario: backlog holds E, active set holds
F (with a backend handle). -/
def c7State : JobManager :=
  { max_concurrent_jobs := 1, max_retries := 3,
    active_jobs := [("F", runningJob "F")],
    pending_jobs := [Job.new "E" "e.py"],
    completed_jobs := [], failed_jobs := [], retry_counts := [] }

/-- Manager state for claim C9's failing input: one active job with a backend
handle. -/
def c9State : JobManager :=
  { max_concurrent_jobs := 4, max_retries := 3,
    active_jobs := [("H", runningJob "H")],
    pending_jobs := [], completed_jobs := [], failed_jobs := [],
    retry_counts := [] }

/-- Poll oracle for C9's failing input: `squeue` no longer lists the job
(empty output) and `sacct` returns empty output as well, so
`sacct_result.stdout.strip().split()[0]` raises IndexError. -/
def c9Polls : PollOracle := fun _ => (⟨0, ""⟩, ⟨0, ""⟩)

/-- Trace reaching the C10 counterexample: with capacity 1 and
`max_retries = 0`, job D runs and fails (moving to the failed set), job A
fills the slot, and re-adding D (which `add_job` accepts, checking only the
active and completed sets) lands D in the backlog while D is still in the
failed set. -/
def c10Ops : List Op :=
  [ .add "D" "d.py" 1 (some "101"),
    .tick 2 (donePoll "FAILED") (fun _ => none),
    .add "A" "a.py" 3 (some "102"),
    .add "D" "d.py" 4 (some "103") ]

/-- The C10 counterexample state. -/
def c10State : JobManager :=
  runOps (JobManager.init 1 0) c10Ops

/-- Scenario trace for claim C3: `max_retries = 2`, job D fails at three
consecutive ticks (each tick's fill phase resubmits it while retry budget
remains). -/
def c3Ops : List Op :=
  [ .add "D" "d.py" 0 (some "201"),
    .tick 1 (donePoll "FAILED") (fun _ => some "202"),
    .tick 2 (donePoll "FAILED") (fun _ => some "203"),
    .tick 3 (donePoll "FAILED") (fun _ => some "204") ]

/-- State after the first `k` operations of the C3 scenario. -/
def c3m (k : Nat) : JobManager :=
  runOps (JobManager.init 1 2) (c3Ops.take k)

/-- A manager with spare capacity and one backlog job E, used as concrete
input for fill-phase statements. -/
def c4FillState : JobManager :=
  { max_concurrent_jobs := 2, max_retries := 3,
    active_jobs := [("F", runningJob "F")],
    pending_jobs := [Job.new "E" "e.py"],
    completed_jobs := [], failed_jobs := [], retry_counts := [] }

/-- A mixed-outcome fill scenario: the backlog holds E then G with spare
capacity, and the backend will accept E but reject G within the same tick. -/
def c4MixState : JobManager :=
  { max_concurrent_jobs := 3, max_retries := 3,
    active_jobs := [("F", runningJob "F")],
    pending_jobs := [Job.new "E" "e.py", Job.new "G" "g.py"],
    completed_jobs := [], failed_jobs := [], retry_counts := [] }

/-- Backend submission answers for the mixed scenario: G's submission is
rejected, every other submission succeeds. -/
def c4MixSubmits : SubmitOracle :=
  fun id => if id = "G" then none else some "55"

/-! ## Lemmas about the dictionary embedding -/

theorem alist.contains_iff_exists {α : Type} (l : List (String × α)) (k : String) :
    alist.contains l k = true ↔ ∃ p ∈ l, p.1 = k := by
  simp [alist.contains, List.any_eq_true, decide_eq_true_iff]

theorem alist.get_eq_none_iff {α : Type} (l : List (String × α)) (k : String) :
    alist.get l k = none ↔ alist.contains l k = false := by
  simp only [alist.get, Option.map_eq_none', List.find?_eq_none,
    alist.contains, List.any_eq_false, decide_eq_true_iff]

theorem alist.get_isSome_iff {α : Type} (l : List (String × α)) (k : String) :
    (alist.get l k).isSome = true ↔ alist.contains l k = true := by
  rcases h : alist.get l k with _ | v
  · simp [(alist.get_eq_none_iff l k).mp h]
  · have : ¬ alist.get l k = none := by simp [h]
    have := (not_iff_not.mpr (alist.get_eq_none_iff l k)).mp this
    simp_all

theorem alist.contains_set_self {α : Type} (l : List (String × α)) (k : String)
    (v : α) : alist.contains (alist.set l k v) k = true := by
  unfold alist.set
  by_cases h : alist.contains l k = true
  · rw [if_pos h]
    rcases (alist.contains_iff_exists l k).mp h with ⟨p, hp, hpk⟩
    refine (alist.contains_iff_exists _ k).mpr ⟨(k, v), ?_, rfl⟩
    exact List.mem_map.mpr ⟨p, hp, by simp [hpk]⟩
  · rw [if_neg h]
    exact (alist.contains_iff_exists _ k).mpr ⟨(k, v), by simp, rfl⟩

theorem alist.contains_set_of {α : Type} (l : List (String × α)) (k id : String)
    (v : α) (h : alist.contains l id = true) :
    alist.contains (alist.set l k v) id = true := by
  rcases (alist.contains_iff_exists l id).mp h with ⟨p, hp, hpk⟩
  unfold alist.set
  by_cases hc : alist.contains l k = true
  · simp only [hc, if_true]
    refine (alist.contains_iff_exists _ id).mpr ?_
    by_cases hpk2 : p.1 = k
    · exact ⟨(k, v), List.mem_map.mpr ⟨p, hp, by simp [hpk2]⟩, by
        rw [← hpk, hpk2]⟩
    · exact ⟨p, List.mem_map.mpr ⟨p, hp, by simp [hpk2]⟩, hpk⟩
  · simp only [hc, if_false]
    exact (alist.contains_iff_exists _ id).mpr ⟨p, by simp [hp], hpk⟩

theorem keyCount_cons {α : Type} (x : String × α) (t : List (String × α))
    (id : String) :
    keyCount (x :: t) id = (if x.1 = id then 1 else 0) + keyCount t id := by
  by_cases h : x.1 = id <;> simp [keyCount, List.filter_cons, h] <;> omega

theorem keyCount_append {α : Type} (l₁ l₂ : List (String × α)) (id : String) :
    keyCount (l₁ ++ l₂) id = keyCount l₁ id + keyCount l₂ id := by
  simp [keyCount, List.filter_append]

theorem pendCount_cons (x : Job) (t : List Job) (id : String) :
    pendCount (x :: t) id = (if x.job_id = id then 1 else 0) + pendCount t id := by
  by_cases h : x.job_id = id <;> simp [pendCount, List.filter_cons, h] <;> omega

theorem pendCount_append (l₁ l₂ : List Job) (id : String) :
    pendCount (l₁ ++ l₂) id = pendCount l₁ id + pendCount l₂ id := by
  simp [pendCount, List.filter_append]

theorem contains_iff_keyCount {α : Type} (l : List (String × α)) (k : String) :
    alist.contains l k = true ↔ 0 < keyCount l k := by
  rw [alist.contains_iff_exists]
  constructor
  · rintro ⟨p, hp, hpk⟩
    have : p ∈ l.filter (fun q => q.1 = k) := List.mem_filter.mpr ⟨hp, by simp [hpk]⟩
    have := List.length_pos.mpr (List.ne_nil_of_mem this)
    simpa [keyCount] using this
  · intro h
    rcases List.exists_mem_of_length_pos h with ⟨p, hp⟩
    rcases List.mem_filter.mp hp with ⟨hpl, hpk⟩
    exact ⟨p, hpl, by simpa using hpk⟩

theorem keyCount_eq_zero_of_not_contains {α : Type} (l : List (String × α))
    (k : String) (h : alist.contains l k = false) : keyCount l k = 0 := by
  by_cases hz : keyCount l k = 0
  · exact hz
  · have : 0 < keyCount l k := Nat.pos_of_ne_zero hz
    rw [(contains_iff_keyCount l k).mpr this] at h
    simp at h

theorem keyCount_map_update {α : Type} (l : List (String × α)) (k id : String)
    (v : α) :
    keyCount (l.map (fun p => if p.1 = k then (k, v) else p)) id =
      keyCount l id := by
  induction l with
  | nil => rfl
  | cons p t ih =>
      by_cases hp : p.1 = k <;>
        simp [List.map_cons, keyCount_cons, hp, ih]

theorem keyCount_set_contains {α : Type} (l : List (String × α)) (k id : String)
    (v : α) (h : alist.contains l k = true) :
    keyCount (alist.set l k v) id = keyCount l id := by
  unfold alist.set
  rw [if_pos h]
  exact keyCount_map_update l k id v

theorem keyCount_set_new {α : Type} (l : List (String × α)) (k id : String)
    (v : α) (h : alist.contains l k = false) :
    keyCount (alist.set l k v) id =
      keyCount l id + (if k = id then 1 else 0) := by
  unfold alist.set
  rw [if_neg (by simp [h])]
  rw [keyCount_append]
  by_cases hk : k = id <;> simp [keyCount, hk]

theorem keyCount_erase {α : Type} (l : List (String × α)) (k id : String) :
    keyCount (alist.erase l k) id = if k = id then 0 else keyCount l id := by
  induction l with
  | nil => by_cases h : k = id <;> simp [alist.erase, keyCount, h]
  | cons p t ih =>
      unfold alist.erase at *
      rw [List.filter_cons]
      by_cases hp : p.1 = k
      · rw [show (decide (p.1 ≠ k)) = false by simp [hp]]
        simp only [Bool.false_eq_true, if_false]
        rw [ih]
        by_cases hk : k = id
        · rw [if_pos hk, if_pos hk]
        · rw [if_neg hk, if_neg hk, keyCount_cons,
            if_neg (fun hh => hk (by rw [← hp, hh]))]
          omega
      · rw [show (decide (p.1 ≠ k)) = true by simp [hp]]
        simp only [if_true]
        rw [keyCount_cons, ih]
        by_cases hk : k = id
        · rw [if_pos hk, if_pos hk,
            if_neg (fun hh => hp (by rw [hh, ← hk]))]
        · rw [if_neg hk, if_neg hk, keyCount_cons]

theorem contains_erase_other {α : Type} (l : List (String × α)) (k id : String)
    (h : k ≠ id) :
    alist.contains (alist.erase l k) id = alist.contains l id := by
  rcases hb : alist.contains l id with _ | _
  · have := keyCount_eq_zero_of_not_contains l id hb
    by_contra hne
    have hpos : 0 < keyCount (alist.erase l k) id :=
      (contains_iff_keyCount _ _).mp (by
        rcases hb2 : alist.contains (alist.erase l k) id with _ | _
        · exact absurd hb2 hne
        · rfl)
    rw [keyCount_erase, if_neg h] at hpos
    omega
  · have hpos := (contains_iff_keyCount l id).mp hb
    refine (contains_iff_keyCount _ _).mpr ?_
    rw [keyCount_erase, if_neg h]
    exact hpos

theorem contains_set_other {α : Type} (l : List (String × α)) (k id : String)
    (v : α) (h : k ≠ id) :
    alist.contains (alist.set l k v) id = alist.contains l id := by
  have hk : keyCount (alist.set l k v) id = keyCount l id := by
    by_cases hc : alist.contains l k = true
    · exact keyCount_set_contains l k id v hc
    · have hc' : alist.contains l k = false := by
        rcases hb : alist.contains l k
        · rfl
        · exact absurd hb hc
      rw [keyCount_set_new l k id v hc', if_neg h]
      omega
  rcases hb : alist.contains l id
  · rcases hb2 : alist.contains (alist.set l k v) id
    · rfl
    · have hpos := (contains_iff_keyCount _ _).mp hb2
      rw [hk] at hpos
      have hz := keyCount_eq_zero_of_not_contains l id hb
      omega
  · refine (contains_iff_keyCount _ _).mpr ?_
    rw [hk]
    exact (contains_iff_keyCount _ _).mp hb

theorem find?_map_update {α : Type} (l : List (String × α)) (k : String)
    (v : α) (h : alist.contains l k = true) :
    (l.map (fun p => if p.1 = k then (k, v) else p)).find?
      (fun p => p.1 = k) = some (k, v) := by
  induction l with
  | nil => simp [alist.contains] at h
  | cons q t ih =>
      by_cases hq : q.1 = k
      · simp [List.find?_cons, hq]
      · have ht : alist.contains t k = true := by
          rcases (alist.contains_iff_exists _ _).mp h with ⟨p, hp, hpk⟩
          rcases List.mem_cons.mp hp with rfl | hp2
          · exact absurd hpk hq
          · exact (alist.contains_iff_exists _ _).mpr ⟨p, hp2, hpk⟩
        simp only [List.map_cons, if_neg hq, List.find?_cons]
        rw [show (decide (q.1 = k)) = false by simp [hq]]
        exact ih ht

theorem find?_map_update_other {α : Type} (l : List (String × α))
    (k id : String) (v : α) (h : k ≠ id) :
    (l.map (fun p => if p.1 = k then (k, v) else p)).find?
      (fun p => p.1 = id) = l.find? (fun p => p.1 = id) := by
  induction l with
  | nil => rfl
  | cons q t ih =>
      by_cases hq : q.1 = k
      · simp only [List.map_cons, if_pos hq, List.find?_cons]
        rw [show (decide (k = id)) = false by simp [h],
          show (decide (q.1 = id)) = false by simp [hq, h]]
        exact ih
      · simp only [List.map_cons, if_neg hq, List.find?_cons]
        cases hd : decide (q.1 = id) <;> simp [hd, ih]

theorem find?_append_single {α : Type} (l : List (String × α)) (k id : String)
    (v : α) (h : k ≠ id) :
    (l ++ [(k, v)]).find? (fun p => p.1 = id) =
      l.find? (fun p => p.1 = id) := by
  induction l with
  | nil => simp [List.find?_cons, show (decide (k = id)) = false by simp [h]]
  | cons q t ih =>
      simp only [List.cons_append, List.find?_cons]
      cases hd : decide (q.1 = id) <;> simp [hd, ih]

theorem find?_append_single_self {α : Type} (l : List (String × α))
    (k : String) (v : α) :
    l.find? (fun p => p.1 = k) = none →
    (l ++ [(k, v)]).find? (fun p => p.1 = k) = some (k, v) := by
  induction l with
  | nil =>
      intro _
      simp [List.find?_cons]
  | cons q t ih =>
      intro hnone
      rw [List.find?_cons] at hnone
      simp only [List.cons_append, List.find?_cons]
      cases hd : decide (q.1 = k)
      · rw [hd] at hnone
        simp only [Bool.false_eq_true, if_false] at hnone ⊢
        exact ih hnone
      · rw [hd] at hnone
        simp at hnone

theorem alist.get_set_self {α : Type} (l : List (String × α)) (k : String)
    (v : α) : alist.get (alist.set l k v) k = some v := by
  unfold alist.set
  by_cases h : alist.contains l k = true
  · rw [if_pos h]
    unfold alist.get
    rw [find?_map_update l k v h]
    rfl
  · rw [if_neg h]
    unfold alist.get
    have hnone : l.find? (fun p => p.1 = k) = none := by
      rw [List.find?_eq_none]
      intro p hp hpk
      exact absurd ((alist.contains_iff_exists _ _).mpr
        ⟨p, hp, by simpa using hpk⟩) (by simp [h])
    rw [find?_append_single_self l k v hnone]
    rfl

theorem alist.get_set_other {α : Type} (l : List (String × α)) (k id : String)
    (v : α) (h : k ≠ id) :
    alist.get (alist.set l k v) id = alist.get l id := by
  unfold alist.set
  by_cases hc : alist.contains l k = true
  · rw [if_pos hc]
    unfold alist.get
    rw [find?_map_update_other l k id v h]
  · rw [if_neg hc]
    unfold alist.get
    rw [find?_append_single l k id v h]

theorem find?_erase_other {α : Type} (l : List (String × α)) (k id : String)
    (h : k ≠ id) :
    (alist.erase l k).find? (fun p => p.1 = id) =
      l.find? (fun p => p.1 = id) := by
  induction l with
  | nil => rfl
  | cons q t ih =>
      unfold alist.erase at *
      rw [List.filter_cons]
      by_cases hq : q.1 = k
      · rw [show (decide (q.1 ≠ k)) = false by simp [hq]]
        simp only [Bool.false_eq_true, if_false]
        rw [ih, List.find?_cons,
          show (decide (q.1 = id)) = false by simp [hq, h]]
      · rw [show (decide (q.1 ≠ k)) = true by simp [hq]]
        simp only [if_true]
        rw [List.find?_cons, List.find?_cons]
        cases hd : decide (q.1 = id)
        · simp only [Bool.false_eq_true, if_false]
          exact ih
        · simp only [if_true]

theorem alist.get_erase_self {α : Type} (l : List (String × α)) (k : String) :
    alist.get (alist.erase l k) k = none := by
  unfold alist.get
  rw [Option.map_eq_none', List.find?_eq_none]
  intro p hp
  rcases List.mem_filter.mp hp with ⟨_, hpk⟩
  simpa using hpk

theorem alist.get_erase_other {α : Type} (l : List (String × α)) (k id : String)
    (h : k ≠ id) :
    alist.get (alist.erase l k) id = alist.get l id := by
  unfold alist.get
  rw [find?_erase_other l k id h]

theorem keysMatch_set (l : List (String × Job)) (k : String) (v : Job)
    (hl : keysMatch l) (hv : v.job_id = k) : keysMatch (alist.set l k v) := by
  unfold alist.set
  by_cases h : alist.contains l k = true
  · rw [if_pos h]
    intro p hp
    rcases List.mem_map.mp hp with ⟨q, hq, hqp⟩
    by_cases hqk : q.1 = k
    · rw [if_pos hqk] at hqp
      rw [← hqp]
      exact hv
    · rw [if_neg hqk] at hqp
      rw [← hqp]
      exact hl q hq
  · rw [if_neg h]
    intro p hp
    rcases List.mem_append.mp hp with hp | hp
    · exact hl p hp
    · rcases List.mem_singleton.mp hp with rfl
      exact hv

theorem keysMatch_erase (l : List (String × Job)) (k : String)
    (hl : keysMatch l) : keysMatch (alist.erase l k) := by
  intro p hp
  exact hl p (List.mem_of_mem_filter hp)

theorem nodup_keys_of_counts (l : List (String × Job))
    (h : ∀ id, keyCount l id ≤ 1) : (l.map Prod.fst).Nodup := by
  induction l with
  | nil => simp
  | cons p t ih =>
      simp only [List.map_cons, List.nodup_cons]
      constructor
      · intro hmem
        rcases List.mem_map.mp hmem with ⟨q, hq, hqp⟩
        have h1 := h p.1
        rw [keyCount_cons, if_pos rfl] at h1
        have h2 : 0 < keyCount t p.1 := by
          refine (contains_iff_keyCount t p.1).mp ?_
          exact (alist.contains_iff_exists t p.1).mpr ⟨q, hq, hqp⟩
        omega
      · refine ih (fun id => ?_)
        have := h id
        rw [keyCount_cons] at this
        omega

theorem snapshot_ids (l : List (String × Job)) (hl : keysMatch l) :
    (l.map (fun p => p.2)).map Job.job_id = l.map Prod.fst := by
  rw [List.map_map]
  exact List.map_congr_left (fun p hp => hl p hp)

/-! ## Field-preservation lemmas for `Job` operations -/

theorem Job.submit_fields (j : Job) (now : Nat) (res : Option String) :
    (j.submit now res).2.job_id = j.job_id := by
  cases res <;> simp [Job.submit]

theorem Job.cancel_fields (j : Job) (now : Nat) (ok : Bool) :
    (j.cancel now ok).2.job_id = j.job_id := by
  unfold Job.cancel
  rcases j.slurm_id with _ | s
  · rfl
  · by_cases h : ok = true <;> simp [h]

theorem Job.check_status_ok_job_id (j : Job) (now : Nat) (a b : CmdResult)
    (st : JobStatus) (j' : Job) (h : j.check_status now a b = .ok (st, j')) :
    j'.job_id = j.job_id := by
  unfold Job.check_status at h
  rcases hs : j.slurm_id with _ | s <;> rw [hs] at h <;> dsimp only at h
  · cases h
    rfl
  · by_cases h1 : a.returncode = 0 ∧ pyStripNonEmpty a.stdout = true
    · rw [if_pos h1] at h
      cases h
      rfl
    · rw [if_neg h1] at h
      rcases hsp : pySplit b.stdout with _ | ⟨state, restS⟩ <;>
        rw [hsp] at h <;> dsimp only at h
      · cases h
      · by_cases h2 : state = "COMPLETED"
        · rw [if_pos h2] at h
          cases h
          rfl
        · rw [if_neg h2] at h
          by_cases h3 : state = "FAILED" ∨ state = "TIMEOUT" ∨
              state = "OUT_OF_MEMORY"
          · rw [if_pos h3] at h
            cases h
            rfl
          · rw [if_neg h3] at h
            cases h
            rfl

/-! ## Claim theorems: the lighter claims -/

/-- **C6, counterexample.**  The claim says cancelling a job already in a
terminal state is a no-op that returns true and leaves every field unchanged.
For a COMPLETED job that has a backend handle, `Job.cancel` runs `scancel`
anyway: when the backend call succeeds the job's status is overwritten to
CANCELLED (and `end_time` is rewritten), and when it fails the method returns
`False`. -/
theorem C6_counterexample :
    doneJob.status = JobStatus.COMPLETED ∧
    (doneJob.cancel 9 true).2 ≠ doneJob ∧
    (doneJob.cancel 9 true).2.status = JobStatus.CANCELLED ∧
    (doneJob.cancel 9 true).2.end_time = some 9 ∧
    (doneJob.cancel 9 false).1 = false := by
  decide

/-- **C6, amended.**  `Job.cancel` is a no-op returning true exactly when the
job has no backend handle; with a handle — terminal or not — it always invokes
the backend: on success it returns true but forces status CANCELLED and
rewrites `end_time`, on failure it returns false leaving the record
unchanged. -/
theorem C6_cancel_amended (j : Job) (now : Nat) (backendOk : Bool) :
    (j.slurm_id = none → j.cancel now backendOk = (true, j)) ∧
    (j.slurm_id ≠ none →
      j.cancel now backendOk =
        if backendOk then
          (true, { j with status := .CANCELLED, end_time := some now })
        else (false, j)) := by
  constructor
  · intro h
    simp [Job.cancel, h]
  · intro h
    rcases hs : j.slurm_id with _ | s
    · exact absurd hs h
    · simp [Job.cancel, hs]

/-- Witness for `C6_cancel_amended` at a concrete terminal job. -/
theorem C6_cancel_amended_witness :
    doneJob.cancel 9 true =
      (true, { doneJob with status := .CANCELLED, end_time := some 9 }) := by
  have h := (C6_cancel_amended doneJob 9 true).2 (by decide)
  simpa using h

/-- **C7, counterexample.**  The claim says a job whose backend cancel fails
is still forced to CANCELLED locally, and that backlog jobs transition to
CANCELLED.  In `cancel_all_jobs` the return value of `job.cancel()` is
ignored: with a failing backend the active job F keeps status RUNNING, and the
backlog job E is dropped by `pending_jobs.clear()` with its status still
PENDING, recorded nowhere. -/
theorem C7_counterexample :
    ((c7State.cancel_all_jobs 6 (fun _ => false)).active_jobs.map
        (fun p => p.2.status) = [JobStatus.RUNNING]) ∧
    ((c7State.cancel_all_jobs 6 (fun _ => false)).pending_jobs = []) ∧
    idCount (c7State.cancel_all_jobs 6 (fun _ => false)) "E" = 0 := by
  decide

/-- **C7, amended.**  `cancel_all_jobs` issues exactly one backend cancel per
active job (best-effort: results are ignored, so a failure stops nothing); a
job whose backend cancel succeeds becomes CANCELLED, one whose cancel fails
keeps its previous record unchanged; the backlog is cleared without backend
contact and without any status transition (the dropped jobs are no longer
tracked), and the completed/failed collections are untouched. -/
theorem C7_cancel_all_amended (m : JobManager) (now : Nat)
    (oks : String → Bool) :
    ((m.cancel_all_jobs now oks).active_jobs =
        m.active_jobs.map (fun p => (p.1, (p.2.cancel now (oks p.1)).2))) ∧
    ((m.cancel_all_jobs now oks).pending_jobs = []) ∧
    ((m.cancel_all_jobs now oks).completed_jobs = m.completed_jobs) ∧
    ((m.cancel_all_jobs now oks).failed_jobs = m.failed_jobs) ∧
    (∀ p ∈ m.active_jobs, oks p.1 = true → p.2.slurm_id ≠ none →
        (p.2.cancel now (oks p.1)).2.status = JobStatus.CANCELLED) ∧
    (∀ p ∈ m.active_jobs, (p.2.cancel now (oks p.1)).1 = false →
        (p.2.cancel now (oks p.1)).2 = p.2) := by
  refine ⟨rfl, rfl, rfl, rfl, ?_, ?_⟩
  · intro p _ hok hs
    rcases h : p.2.slurm_id with _ | s
    · exact absurd h hs
    · simp [Job.cancel, h, hok]
  · intro p _ hfail
    rcases h : p.2.slurm_id with _ | s
    · simp [Job.cancel, h] at hfail
    · by_cases hok : oks p.1 = true <;> simp [Job.cancel, h, hok] at hfail ⊢

/-- Witness for `C7_cancel_all_amended` at the C7 scenario state. -/
theorem C7_cancel_all_amended_witness :
    ((c7State.cancel_all_jobs 6 (fun _ => true)).pending_jobs = []) ∧
    ((runningJob "F").cancel 6 true).2.status = JobStatus.CANCELLED := by
  have h := C7_cancel_all_amended c7State 6 (fun _ => true)
  exact ⟨h.2.1, h.2.2.2.2.1 ("F", runningJob "F") (by decide) rfl (by decide)⟩

/-- **C9** (code bug).  The claim — matching §7 of the spec and the intent of
the `try/except` in `Job.check_status` — says a poll failure such as malformed
or empty backend status output is contained to the one job and never aborts
the control loop.  The code's `except subprocess.CalledProcessError` is
ineffective (neither polling `subprocess.run` passes `check=True`), and when a
job has left `squeue` while `sacct` prints nothing,
`sacct_result.stdout.strip().split()[0]` raises an uncaught IndexError which
propagates out of `update_status`; `run()` then cancels every job and
re-raises, terminating the loop.  Evaluated at the failing input: -/
theorem C9_poll_error_aborts_tick :
    (runningJob "H").check_status 5 ⟨0, ""⟩ ⟨0, ""⟩ = .error "IndexError" ∧
    (c9State.update_status 5 c9Polls (fun _ => some "x")).2 =
      some "IndexError" :=
  ⟨rfl, rfl⟩

/-- **C4, counterexample.**  The claim says a job whose backend submission
fails from `add_job`'s immediate path ends up in the failed set.  In the code
that path just returns `False`: the manager is unchanged and job G lands in no
collection at all. -/
theorem C4_counterexample :
    (JobManager.init 1 3).add_job "G" "g.py" 0 none =
      (false, JobManager.init 1 3) ∧
    idCount ((JobManager.init 1 3).add_job "G" "g.py" 0 none).2 "G" = 0 := by
  decide

/-- One step of the fill phase on a failed submission: the popped job is
recorded (with status FAILED, the in-place mutation done by `job.submit()`) in
`failed_jobs` and the loop continues. -/
theorem fill_loop_cons_fail (now : Nat) (submits : SubmitOracle) (fuel : Nat)
    (m : JobManager) (next_job : Job) (rest : List Job)
    (hp : m.pending_jobs = next_job :: rest)
    (hcap : m.active_jobs.length < m.max_concurrent_jobs)
    (hres : submits next_job.job_id = none) :
    fill_loop now submits (fuel + 1) m =
      ((fill_loop now submits fuel
          { m with pending_jobs := rest,
                   failed_jobs := alist.set m.failed_jobs next_job.job_id
                     { next_job with status := .FAILED } }).1,
       next_job ::
         (fill_loop now submits fuel
          { m with pending_jobs := rest,
                   failed_jobs := alist.set m.failed_jobs next_job.job_id
                     { next_job with status := .FAILED } }).2) := by
  conv_lhs => rw [fill_loop]
  rw [if_pos hcap, hp]
  simp [JobManager.submit_job, Job.submit, hres]

/-- The fill phase when every submission fails: the backlog is drained, every
popped job lands in `failed_jobs`, and the active set and retry counters are
untouched.  The extra last conjunct (failed-set membership is monotone) feeds
the induction. -/
theorem fill_loop_all_fail (now : Nat) :
    ∀ (fuel : Nat) (m : JobManager),
      m.pending_jobs.length ≤ fuel →
      m.active_jobs.length < m.max_concurrent_jobs →
      ((fill_loop now (fun _ => none) fuel m).1.active_jobs = m.active_jobs ∧
       (fill_loop now (fun _ => none) fuel m).1.retry_counts = m.retry_counts ∧
       (fill_loop now (fun _ => none) fuel m).1.pending_jobs = [] ∧
       (∀ j ∈ m.pending_jobs,
         alist.contains (fill_loop now (fun _ => none) fuel m).1.failed_jobs
           j.job_id = true) ∧
       (∀ id, alist.contains m.failed_jobs id = true →
         alist.contains (fill_loop now (fun _ => none) fuel m).1.failed_jobs
           id = true)) := by
  intro fuel
  induction fuel with
  | zero =>
      intro m hlen _
      have hp : m.pending_jobs = [] :=
        List.length_eq_zero.mp (Nat.le_zero.mp hlen)
      simp [fill_loop, hp]
  | succ fuel ih =>
      intro m hlen hcap
      rcases hp : m.pending_jobs with _ | ⟨next_job, rest⟩
      · simp [fill_loop, hp, hcap]
      · have hstep := fill_loop_cons_fail now (fun _ => none) fuel m next_job
          rest hp hcap rfl
        have hrest : rest.length ≤ fuel := by
          rw [hp] at hlen
          simp at hlen
          omega
        have IH := ih
          { m with pending_jobs := rest,
                   failed_jobs := alist.set m.failed_jobs next_job.job_id
                     { next_job with status := .FAILED } }
          (by simpa using hrest) (by simpa using hcap)
        rw [hstep]
        refine ⟨by simpa using IH.1, by simpa using IH.2.1,
          by simpa using IH.2.2.1, ?_, ?_⟩
        · intro j hj
          rcases List.mem_cons.mp hj with hj | hj
          · subst hj
            exact IH.2.2.2.2 j.job_id (by
              simpa using alist.contains_set_self m.failed_jobs j.job_id
                { j with status := .FAILED })
          · exact IH.2.2.2.1 j hj
        · intro id hid
          exact IH.2.2.2.2 id (by
            simpa using alist.contains_set_of m.failed_jobs next_job.job_id id
              { next_job with status := .FAILED } hid)

/-- **C10, counterexample.**  The claim says every job waiting in the backlog
yields `None` from `get_job_status`.  Reachable refutation: with capacity 1
and `max_retries = 0`, job D runs and fails terminally, A fills the slot, and
re-adding D (accepted — `add_job` checks only the active and completed sets)
puts D in the backlog while its old record sits in the failed set;
`get_job_status "D"` then reports FAILED, not `None`. -/
theorem C10_counterexample :
    c10State.pending_jobs.map Job.job_id = ["D"] ∧
    c10State.get_job_status "D" = some JobStatus.FAILED := by
  decide

/-- **C10, amended.**  `get_job_status` never consults the backlog: it returns
`None` exactly when the identifier is in none of the active, completed and
failed collections.  Hence a backlog job whose identifier is in none of those
three collections yields `None` — the same as a never-added identifier — but a
backlog job whose identifier also has a record in one of them (possible by
re-adding a failed id) yields that record's status. -/
theorem C10_get_job_status_amended (m : JobManager) (job_id : String) :
    (alist.contains m.active_jobs job_id = false →
     alist.contains m.completed_jobs job_id = false →
     alist.contains m.failed_jobs job_id = false →
     m.get_job_status job_id = none) ∧
    (m.get_job_status job_id = none ↔
      (alist.contains m.active_jobs job_id = false ∧
       alist.contains m.completed_jobs job_id = false ∧
       alist.contains m.failed_jobs job_id = false)) := by
  have key : m.get_job_status job_id = none ↔
      (alist.contains m.active_jobs job_id = false ∧
       alist.contains m.completed_jobs job_id = false ∧
       alist.contains m.failed_jobs job_id = false) := by
    unfold JobManager.get_job_status
    rcases hA : alist.get m.active_jobs job_id with _ | j
    · rcases hC : alist.get m.completed_jobs job_id with _ | j
      · rcases hF : alist.get m.failed_jobs job_id with _ | j
        · simp [(alist.get_eq_none_iff _ _).mp hA,
                (alist.get_eq_none_iff _ _).mp hC,
                (alist.get_eq_none_iff _ _).mp hF]
        · have : alist.contains m.failed_jobs job_id = true :=
            (alist.get_isSome_iff _ _).mp (by simp [hF])
          simp [this]
      · have : alist.contains m.completed_jobs job_id = true :=
          (alist.get_isSome_iff _ _).mp (by simp [hC])
        simp [this]
    · have : alist.contains m.active_jobs job_id = true :=
        (alist.get_isSome_iff _ _).mp (by simp [hA])
      simp [this]
  exact ⟨fun ha hc hf => key.mpr ⟨ha, hc, hf⟩, key⟩

/-- Witness for `C10_get_job_status_amended`: backlog job E of `c4FillState`
is in none of the three dictionaries, and indeed gets status `None`. -/
theorem C10_get_job_status_amended_witness :
    c4FillState.get_job_status "E" = none := by
  exact (C10_get_job_status_amended c4FillState "E").1 (by decide) (by decide)
    (by decide)

/-- **C8** (capacity controller modelled from the spec; the manager-side
resize handler is absent from `src/`).  A positive requested capacity is
accepted and staged without touching the live manager; the next capacity
phase applies it to the live capacity and clears the slot; applying a staged
request never changes the active set's membership (for any state, the
capacity phase leaves `active_jobs` — and every other collection — exactly as
it was, so no already-active job is stopped by a shrink); a non-positive
request is rejected with the controller unchanged. -/
theorem C8_resize_applied_at_capacity_phase (r : ResizableManager) (n : Int)
    (hn : 0 < n) :
    (request_resize r n).1 = true ∧
    (request_resize r n).2.mgr = r.mgr ∧
    (capacity_phase (request_resize r n).2).mgr.max_concurrent_jobs =
      n.toNat ∧
    (capacity_phase (request_resize r n).2).staged_capacity = none ∧
    (∀ r' : ResizableManager,
      (capacity_phase r').mgr.active_jobs = r'.mgr.active_jobs ∧
      (capacity_phase r').mgr.pending_jobs = r'.mgr.pending_jobs ∧
      (capacity_phase r').mgr.completed_jobs = r'.mgr.completed_jobs ∧
      (capacity_phase r').mgr.failed_jobs = r'.mgr.failed_jobs) ∧
    (∀ (r' : ResizableManager) (k : Int), k ≤ 0 →
      request_resize r' k = (false, r')) := by
  have hle : ¬ n ≤ 0 := not_le.mpr hn
  refine ⟨by simp [request_resize, hle], by simp [request_resize, hle],
    by simp [request_resize, hle, capacity_phase],
    by simp [request_resize, hle, capacity_phase], ?_, ?_⟩
  · intro r'
    rcases h : r'.staged_capacity with _ | c <;>
      simp [capacity_phase, h]
  · intro r' k hk
    simp [request_resize, hk]

/-- Witness for `C8_resize_applied_at_capacity_phase` at a concrete
controller holding the C7 scenario manager and a request for capacity 5. -/
theorem C8_resize_witness :
    (capacity_phase
        (request_resize ⟨c7State, none⟩ 5).2).mgr.max_concurrent_jobs = 5 ∧
    (capacity_phase
        (request_resize ⟨c7State, none⟩ 5).2).mgr.active_jobs =
      c7State.active_jobs := by
  have h := C8_resize_applied_at_capacity_phase ⟨c7State, none⟩ 5 (by decide)
  refine ⟨h.2.2.1, ?_⟩
  have h1 := (h.2.2.2.2.1 (request_resize ⟨c7State, none⟩ 5).2).1
  rw [h1, h.2.1]

/-! ## Step lemmas for the control-loop phases -/

theorem poll_loop_cons_error (now : Nat) (polls : PollOracle) (m : JobManager)
    (job : Job) (rest : List Job) (e : String)
    (hc : job.check_status now (polls job.job_id).1 (polls job.job_id).2 =
      .error e) :
    poll_loop now polls m (job :: rest) = (m, some e) := by
  unfold poll_loop
  rw [hc]

theorem poll_loop_cons_ok (now : Nat) (polls : PollOracle) (m : JobManager)
    (job : Job) (rest : List Job) (st : JobStatus) (j : Job)
    (hc : job.check_status now (polls job.job_id).1 (polls job.job_id).2 =
      .ok (st, j)) :
    poll_loop now polls m (job :: rest) =
      poll_loop now polls
        (if st = .COMPLETED then
          ({ m with active_jobs :=
              alist.set m.active_jobs j.job_id j }).handle_completed_job j
         else if st = .FAILED then
          ({ m with active_jobs :=
              alist.set m.active_jobs j.job_id j }).handle_failed_job j
         else { m with active_jobs := alist.set m.active_jobs j.job_id j })
        rest := by
  conv_lhs => rw [poll_loop]
  rw [hc]
  dsimp only
  by_cases h1 : st = JobStatus.COMPLETED
  · rw [if_pos h1, if_pos h1]
  · rw [if_neg h1, if_neg h1]
    by_cases h2 : st = JobStatus.FAILED
    · rw [if_pos h2, if_pos h2]
    · rw [if_neg h2, if_neg h2]

theorem fill_loop_zero (now : Nat) (submits : SubmitOracle) (m : JobManager) :
    fill_loop now submits 0 m = (m, []) := rfl

theorem fill_loop_stop (now : Nat) (submits : SubmitOracle) (fuel : Nat)
    (m : JobManager) (h : ¬ m.active_jobs.length < m.max_concurrent_jobs) :
    fill_loop now submits fuel m = (m, []) := by
  cases fuel with
  | zero => rfl
  | succ fuel =>
      unfold fill_loop
      rw [if_neg h]

theorem fill_loop_nil (now : Nat) (submits : SubmitOracle) (fuel : Nat)
    (m : JobManager) (h : m.pending_jobs = []) :
    fill_loop now submits fuel m = (m, []) := by
  cases fuel with
  | zero => rfl
  | succ fuel =>
      unfold fill_loop
      by_cases hc : m.active_jobs.length < m.max_concurrent_jobs
      · rw [if_pos hc, h]
      · rw [if_neg hc]

theorem fill_loop_cons_ok (now : Nat) (submits : SubmitOracle) (fuel : Nat)
    (m : JobManager) (next_job : Job) (rest : List Job) (sid : String)
    (hp : m.pending_jobs = next_job :: rest)
    (hcap : m.active_jobs.length < m.max_concurrent_jobs)
    (hres : submits next_job.job_id = some sid) :
    fill_loop now submits (fuel + 1) m =
      ((fill_loop now submits fuel
          { m with pending_jobs := rest,
                   active_jobs := alist.set m.active_jobs next_job.job_id
                     { next_job with slurm_id := some sid,
                                     status := .RUNNING,
                                     start_time := some now } }).1,
       next_job ::
         (fill_loop now submits fuel
          { m with pending_jobs := rest,
                   active_jobs := alist.set m.active_jobs next_job.job_id
                     { next_job with slurm_id := some sid,
                                     status := .RUNNING,
                                     start_time := some now } }).2) := by
  conv_lhs => rw [fill_loop]
  rw [if_pos hcap, hp]
  simp [JobManager.submit_job, Job.submit, hres]

theorem handle_completed_config (m : JobManager) (j : Job) :
    (m.handle_completed_job j).max_concurrent_jobs = m.max_concurrent_jobs ∧
    (m.handle_completed_job j).max_retries = m.max_retries ∧
    (m.handle_completed_job j).pending_jobs = m.pending_jobs :=
  ⟨rfl, rfl, rfl⟩

theorem handle_failed_config (m : JobManager) (j : Job) :
    (m.handle_failed_job j).max_concurrent_jobs = m.max_concurrent_jobs ∧
    (m.handle_failed_job j).max_retries = m.max_retries := by
  unfold JobManager.handle_failed_job
  by_cases h : (nlist.get m.retry_counts j.job_id).getD 0 < m.max_retries <;>
    simp [h]

theorem poll_loop_config (now : Nat) (polls : PollOracle) :
    ∀ (js : List Job) (m : JobManager),
      (poll_loop now polls m js).1.max_concurrent_jobs =
        m.max_concurrent_jobs ∧
      (poll_loop now polls m js).1.max_retries = m.max_retries := by
  intro js
  induction js with
  | nil => intro m; exact ⟨rfl, rfl⟩
  | cons job rest ih =>
      intro m
      rcases hc : job.check_status now (polls job.job_id).1
          (polls job.job_id).2 with e | ⟨st, j⟩
      · rw [poll_loop_cons_error now polls m job rest e hc]
        exact ⟨rfl, rfl⟩
      · rw [poll_loop_cons_ok now polls m job rest st j hc]
        by_cases h1 : st = JobStatus.COMPLETED

        · rw [if_pos h1]
          have h2 := ih
            (JobManager.handle_completed_job
              { m with active_jobs := alist.set m.active_jobs j.job_id j } j)
          exact ⟨h2.1, h2.2⟩
        · rw [if_neg h1]
          by_cases h2 : st = JobStatus.FAILED
          · rw [if_pos h2]
            have h3 := ih
              (JobManager.handle_failed_job
                { m with active_jobs := alist.set m.active_jobs j.job_id j } j)
            have h4 := handle_failed_config
              { m with active_jobs := alist.set m.active_jobs j.job_id j } j
            exact ⟨h3.1.trans h4.1, h3.2.trans h4.2⟩
          · rw [if_neg h2]
            exact ih _

theorem fill_loop_config (now : Nat) (submits : SubmitOracle) :
    ∀ (fuel : Nat) (m : JobManager),
      (fill_loop now submits fuel m).1.max_concurrent_jobs =
        m.max_concurrent_jobs ∧
      (fill_loop now submits fuel m).1.max_retries = m.max_retries ∧
      (fill_loop now submits fuel m).1.retry_counts = m.retry_counts ∧
      (fill_loop now submits fuel m).1.completed_jobs = m.completed_jobs := by
  intro fuel
  induction fuel with
  | zero => intro m; exact ⟨rfl, rfl, rfl, rfl⟩
  | succ fuel ih =>
      intro m
      by_cases hcap : m.active_jobs.length < m.max_concurrent_jobs
      · rcases hp : m.pending_jobs with _ | ⟨next_job, rest⟩
        · rw [fill_loop_nil now submits (fuel + 1) m hp]
          exact ⟨rfl, rfl, rfl, rfl⟩
        · rcases hres : submits next_job.job_id with _ | sid
          · rw [fill_loop_cons_fail now submits fuel m next_job rest hp hcap
              hres]
            exact ih _
          · rw [fill_loop_cons_ok now submits fuel m next_job rest sid hp hcap
              hres]
            exact ih _
      · rw [fill_loop_stop now submits (fuel + 1) m hcap]
        exact ⟨rfl, rfl, rfl, rfl⟩

theorem keys_set_contains {α : Type} (l : List (String × α)) (k : String)
    (v : α) (h : alist.contains l k = true) :
    (alist.set l k v).map Prod.fst = l.map Prod.fst := by
  unfold alist.set
  rw [if_pos h, List.map_map]
  refine List.map_congr_left (fun p _ => ?_)
  by_cases hp : p.1 = k <;> simp [hp]

theorem keys_set_new {α : Type} (l : List (String × α)) (k : String) (v : α)
    (h : alist.contains l k = false) :
    (alist.set l k v).map Prod.fst = l.map Prod.fst ++ [k] := by
  unfold alist.set
  rw [if_neg (by simp [h])]
  simp

theorem length_set_contains {α : Type} (l : List (String × α)) (k : String)
    (v : α) (h : alist.contains l k = true) :
    (alist.set l k v).length = l.length := by
  unfold alist.set
  rw [if_pos h]
  simp

theorem length_set_new {α : Type} (l : List (String × α)) (k : String) (v : α)
    (h : alist.contains l k = false) :
    (alist.set l k v).length = l.length + 1 := by
  unfold alist.set
  rw [if_neg (by simp [h])]
  simp

theorem length_erase_le {α : Type} (l : List (String × α)) (k : String) :
    (alist.erase l k).length ≤ l.length :=
  List.length_filter_le _ _

theorem keys_erase_sublist {α : Type} (l : List (String × α)) (k : String) :
    ((alist.erase l k).map Prod.fst).Sublist (l.map Prod.fst) :=
  (List.filter_sublist _).map _

theorem not_mem_keys_of_not_contains {α : Type} (l : List (String × α))
    (k : String) (h : alist.contains l k = false) : k ∉ l.map Prod.fst := by
  intro hmem
  rcases List.mem_map.mp hmem with ⟨p, hp, hpk⟩
  exact absurd ((alist.contains_iff_exists _ _).mpr ⟨p, hp, hpk⟩)
    (by simp [h])

theorem snapshot_contains (m : JobManager) (hkm : keysMatch m.active_jobs) :
    ∀ j ∈ m.active_jobs.map (fun p => p.2),
      alist.contains m.active_jobs j.job_id = true := by
  intro j hj
  rcases List.mem_map.mp hj with ⟨p, hp, rfl⟩
  exact (alist.contains_iff_exists _ _).mpr ⟨p, hp, (hkm p hp).symm⟩

theorem handle_failed_active (m : JobManager) (job : Job) :
    (m.handle_failed_job job).active_jobs =
      alist.erase m.active_jobs job.job_id := by
  unfold JobManager.handle_failed_job
  by_cases h : (nlist.get m.retry_counts job.job_id).getD 0 < m.max_retries <;>
    simp [h]

theorem handle_failed_requeue (m : JobManager) (job : Job)
    (h : (nlist.get m.retry_counts job.job_id).getD 0 < m.max_retries) :
    m.handle_failed_job job =
      { m with retry_counts := nlist.set m.retry_counts job.job_id
                 ((nlist.get m.retry_counts job.job_id).getD 0 + 1),
               pending_jobs := job :: m.pending_jobs,
               active_jobs := alist.erase m.active_jobs job.job_id } := by
  unfold JobManager.handle_failed_job
  simp [h]

theorem handle_failed_exhaust (m : JobManager) (job : Job)
    (h : ¬ (nlist.get m.retry_counts job.job_id).getD 0 < m.max_retries) :
    m.handle_failed_job job =
      { m with failed_jobs := alist.set m.failed_jobs job.job_id job,
               retry_counts := nlist.erase m.retry_counts job.job_id,
               active_jobs := alist.erase m.active_jobs job.job_id } := by
  unfold JobManager.handle_failed_job
  simp [h]

/-! ## Well-formedness and the capacity bound (claim C2 machinery) -/

theorem poll_loop_wf (now : Nat) (polls : PollOracle) :
    ∀ (js : List Job) (m : JobManager),
      keysMatch m.active_jobs →
      (m.active_jobs.map Prod.fst).Nodup →
      (js.map Job.job_id).Nodup →
      (∀ j ∈ js, alist.contains m.active_jobs j.job_id = true) →
      (keysMatch (poll_loop now polls m js).1.active_jobs ∧
       ((poll_loop now polls m js).1.active_jobs.map Prod.fst).Nodup ∧
       (poll_loop now polls m js).1.active_jobs.length ≤
         m.active_jobs.length) := by
  intro js
  induction js with
  | nil =>
      intro m h1 h2 _ _
      exact ⟨h1, h2, le_refl _⟩
  | cons job rest ih =>
      intro m hkm hnd hjnd hcont
      rcases hc : job.check_status now (polls job.job_id).1
          (polls job.job_id).2 with e | ⟨st, j⟩
      · rw [poll_loop_cons_error now polls m job rest e hc]
        exact ⟨hkm, hnd, le_refl _⟩
      · rw [poll_loop_cons_ok now polls m job rest st j hc]
        have hjid : j.job_id = job.job_id :=
          Job.check_status_ok_job_id job now _ _ st j hc
        have hcj : alist.contains m.active_jobs j.job_id = true := by
          rw [hjid]
          exact hcont job (List.mem_cons_self _ _)
        have hkeys1 : (alist.set m.active_jobs j.job_id j).map Prod.fst =
            m.active_jobs.map Prod.fst := keys_set_contains _ _ _ hcj
        have hkm1 : keysMatch (alist.set m.active_jobs j.job_id j) :=
          keysMatch_set _ _ _ hkm rfl
        have hnd1 : ((alist.set m.active_jobs j.job_id j).map Prod.fst).Nodup :=
          hkeys1 ▸ hnd
        have hlen1 : (alist.set m.active_jobs j.job_id j).length =
            m.active_jobs.length := length_set_contains _ _ _ hcj
        have hrest : ∀ j' ∈ rest,
            alist.contains (alist.set m.active_jobs j.job_id j) j'.job_id =
              true := fun j' hj' =>
          alist.contains_set_of _ _ _ _
            (hcont j' (List.mem_cons_of_mem _ hj'))
        have hne : ∀ j' ∈ rest, j.job_id ≠ j'.job_id := by
          intro j' hj' hEq
          rcases List.nodup_cons.mp hjnd with ⟨hnotin, _⟩
          rw [hjid] at hEq
          exact hnotin (hEq ▸ List.mem_map_of_mem Job.job_id hj')
        have hrnd : (rest.map Job.job_id).Nodup := (List.nodup_cons.mp hjnd).2
        by_cases h1 : st = JobStatus.COMPLETED
        · rw [if_pos h1]
          have IH := ih
            (JobManager.handle_completed_job
              { m with active_jobs := alist.set m.active_jobs j.job_id j } j)
            (keysMatch_erase _ _ hkm1)
            ((keys_erase_sublist _ _).nodup hnd1)
            hrnd
            (fun j' hj' => by
              have := hrest j' hj'
              exact (contains_erase_other _ _ _ (hne j' hj')).symm ▸
                ((contains_erase_other _ _ _ (hne j' hj')).trans this))
          refine ⟨IH.1, IH.2.1, le_trans IH.2.2 ?_⟩
          calc (alist.erase (alist.set m.active_jobs j.job_id j)
                  j.job_id).length
              ≤ (alist.set m.active_jobs j.job_id j).length :=
                length_erase_le _ _
            _ = m.active_jobs.length := hlen1
        · rw [if_neg h1]
          by_cases h2 : st = JobStatus.FAILED
          · rw [if_pos h2]
            have hact := handle_failed_active
              { m with active_jobs := alist.set m.active_jobs j.job_id j } j
            have IH := ih
              (JobManager.handle_failed_job
                { m with active_jobs := alist.set m.active_jobs j.job_id j } j)
              (by rw [hact]; exact keysMatch_erase _ _ hkm1)
              (by rw [hact]; exact (keys_erase_sublist _ _).nodup hnd1)
              hrnd
              (fun j' hj' => by
                rw [hact, contains_erase_other _ _ _ (hne j' hj')]
                exact hrest j' hj')
            refine ⟨IH.1, IH.2.1, le_trans IH.2.2 ?_⟩
            rw [hact]
            calc (alist.erase (alist.set m.active_jobs j.job_id j)
                    j.job_id).length
                ≤ (alist.set m.active_jobs j.job_id j).length :=
                  length_erase_le _ _
              _ = m.active_jobs.length := hlen1
          · rw [if_neg h2]
            have IH := ih
              { m with active_jobs := alist.set m.active_jobs j.job_id j }
              hkm1 hnd1 hrnd hrest
            exact ⟨IH.1, IH.2.1, le_trans IH.2.2 (le_of_eq hlen1)⟩

theorem fill_loop_wf (now : Nat) (submits : SubmitOracle) :
    ∀ (fuel : Nat) (m : JobManager),
      keysMatch m.active_jobs →
      (m.active_jobs.map Prod.fst).Nodup →
      m.active_jobs.length ≤ m.max_concurrent_jobs →
      (keysMatch (fill_loop now submits fuel m).1.active_jobs ∧
       ((fill_loop now submits fuel m).1.active_jobs.map Prod.fst).Nodup ∧
       (fill_loop now submits fuel m).1.active_jobs.length ≤
         (fill_loop now submits fuel m).1.max_concurrent_jobs) := by
  intro fuel
  induction fuel with
  | zero =>
      intro m h1 h2 h3
      exact ⟨h1, h2, h3⟩
  | succ fuel ih =>
      intro m hkm hnd hlen
      by_cases hcap : m.active_jobs.length < m.max_concurrent_jobs
      · rcases hp : m.pending_jobs with _ | ⟨next_job, rest⟩
        · rw [fill_loop_nil now submits (fuel + 1) m hp]
          exact ⟨hkm, hnd, hlen⟩
        · rcases hres : submits next_job.job_id with _ | sid
          · rw [fill_loop_cons_fail now submits fuel m next_job rest hp hcap
              hres]
            exact ih _ (by simpa using hkm) (by simpa using hnd)
              (by simpa using hlen)
          · rw [fill_loop_cons_ok now submits fuel m next_job rest sid hp hcap
              hres]
            by_cases hcnt :
                alist.contains m.active_jobs next_job.job_id = true
            · refine ih _ (keysMatch_set _ _ _ hkm rfl) ?_ ?_
              · show ((alist.set m.active_jobs next_job.job_id _).map
                  Prod.fst).Nodup
                rw [keys_set_contains _ _ _ hcnt]
                exact hnd
              · show (alist.set m.active_jobs next_job.job_id _).length ≤ _
                rw [length_set_contains _ _ _ hcnt]
                exact hlen
            · have hcnt' : alist.contains m.active_jobs next_job.job_id =
                  false := by
                rcases hb : alist.contains m.active_jobs next_job.job_id
                · rfl
                · exact absurd hb hcnt
              refine ih _ (keysMatch_set _ _ _ hkm rfl) ?_ ?_
              · show ((alist.set m.active_jobs next_job.job_id _).map
                  Prod.fst).Nodup
                rw [keys_set_new _ _ _ hcnt']
                simp only [List.nodup_append, List.nodup_cons,
                  List.not_mem_nil, not_false_iff, List.nodup_nil,
                  true_and, and_true]
                constructor
                · exact hnd
                · intro a ha hb
                  rcases List.mem_singleton.mp hb with rfl
                  exact not_mem_keys_of_not_contains _ _ hcnt' ha
              · show (alist.set m.active_jobs next_job.job_id _).length ≤ _
                rw [length_set_new _ _ _ hcnt']
                exact hcap
      · rw [fill_loop_stop now submits (fuel + 1) m hcap]
        exact ⟨hkm, hnd, hlen⟩

theorem update_status_wf (m : JobManager) (now : Nat) (polls : PollOracle)
    (submits : SubmitOracle)
    (hkm : keysMatch m.active_jobs)
    (hnd : (m.active_jobs.map Prod.fst).Nodup)
    (hlen : m.active_jobs.length ≤ m.max_concurrent_jobs) :
    keysMatch (m.update_status now polls submits).1.active_jobs ∧
    ((m.update_status now polls submits).1.active_jobs.map Prod.fst).Nodup ∧
    (m.update_status now polls submits).1.active_jobs.length ≤
      (m.update_status now polls submits).1.max_concurrent_jobs ∧
    (m.update_status now polls submits).1.max_concurrent_jobs =
      m.max_concurrent_jobs := by
  have hsnap : ((m.active_jobs.map (fun p => p.2)).map Job.job_id).Nodup := by
    rw [snapshot_ids m.active_jobs hkm]
    exact hnd
  have hpoll := poll_loop_wf now polls (m.active_jobs.map (fun p => p.2)) m
    hkm hnd hsnap (snapshot_contains m hkm)
  have hcfg := poll_loop_config now polls (m.active_jobs.map (fun p => p.2)) m
  unfold JobManager.update_status
  rcases hr : poll_loop now polls m (m.active_jobs.map (fun p => p.2))
    with ⟨m1, err⟩
  rw [hr] at hpoll hcfg ⊢
  rcases err with _ | e
  · dsimp only
    have hfill := fill_loop_wf now submits m1.pending_jobs.length m1
      hpoll.1 hpoll.2.1
      (by rw [hcfg.1]; exact le_trans hpoll.2.2 hlen)
    have hfcfg := fill_loop_config now submits m1.pending_jobs.length m1
    exact ⟨hfill.1, hfill.2.1, hfill.2.2, hfcfg.1.trans hcfg.1⟩
  · dsimp only
    exact ⟨hpoll.1, hpoll.2.1, by rw [hcfg.1]; exact le_trans hpoll.2.2 hlen,
      hcfg.1⟩

theorem cancel_all_wf (m : JobManager) (now : Nat) (oks : String → Bool) :
    (m.cancel_all_jobs now oks).active_jobs.map Prod.fst =
      m.active_jobs.map Prod.fst ∧
    (keysMatch m.active_jobs →
      keysMatch (m.cancel_all_jobs now oks).active_jobs) ∧
    (m.cancel_all_jobs now oks).active_jobs.length =
      m.active_jobs.length := by
  refine ⟨?_, ?_, by simp [JobManager.cancel_all_jobs]⟩
  · show (List.map _ m.active_jobs).map Prod.fst = _
    rw [List.map_map]
    exact List.map_congr_left (fun p _ => rfl)
  · intro hkm p hp
    rcases List.mem_map.mp hp with ⟨q, hq, rfl⟩
    show ((q.2.cancel now (oks q.1)).2).job_id = q.1
    rw [Job.cancel_fields]
    exact hkm q hq

theorem step_wf (m : JobManager) (op : Op)
    (hkm : keysMatch m.active_jobs)
    (hnd : (m.active_jobs.map Prod.fst).Nodup)
    (hlen : m.active_jobs.length ≤ m.max_concurrent_jobs) :
    keysMatch (step m op).active_jobs ∧
    ((step m op).active_jobs.map Prod.fst).Nodup ∧
    (step m op).active_jobs.length ≤ (step m op).max_concurrent_jobs ∧
    (step m op).max_concurrent_jobs = m.max_concurrent_jobs := by
  cases op with
  | add job_id sp now res =>
      dsimp only [step]
      unfold JobManager.add_job
      by_cases hdup : alist.contains m.active_jobs job_id = true ∨
          alist.contains m.completed_jobs job_id = true
      · rw [if_pos hdup]
        exact ⟨hkm, hnd, hlen, rfl⟩
      · rw [if_neg hdup]
        have hnca : alist.contains m.active_jobs job_id = false := by
          rcases hb : alist.contains m.active_jobs job_id
          · rfl
          · exact absurd (Or.inl hb) hdup
        by_cases hcap : m.active_jobs.length < m.max_concurrent_jobs
        · rw [if_pos hcap]
          rcases res with _ | sid
          · exact ⟨hkm, hnd, hlen, rfl⟩
          · refine ⟨keysMatch_set _ _ _ hkm rfl, ?_, ?_, rfl⟩
            · show ((alist.set m.active_jobs job_id _).map Prod.fst).Nodup
              rw [keys_set_new _ _ _ hnca]
              simp only [List.nodup_append, List.nodup_cons,
                List.not_mem_nil, not_false_iff, List.nodup_nil,
                true_and, and_true]
              constructor
              · exact hnd
              · intro a ha hb
                rcases List.mem_singleton.mp hb with rfl
                exact not_mem_keys_of_not_contains _ _ hnca ha
            · show (alist.set m.active_jobs job_id _).length ≤ _
              rw [length_set_new _ _ _ hnca]
              exact hcap
        · rw [if_neg hcap]
          exact ⟨hkm, hnd, hlen, rfl⟩
  | tick now polls submits =>
      exact update_status_wf m now polls submits hkm hnd hlen
  | cancelAll now oks =>
      have h := cancel_all_wf m now oks
      refine ⟨h.2.1 hkm, ?_, ?_, rfl⟩
      · show ((m.cancel_all_jobs now oks).active_jobs.map Prod.fst).Nodup
        rw [h.1]
        exact hnd
      · show (m.cancel_all_jobs now oks).active_jobs.length ≤ _
        rw [h.2.2]
        exact hlen

theorem runOps_wf : ∀ (ops : List Op) (m : JobManager),
    keysMatch m.active_jobs →
    (m.active_jobs.map Prod.fst).Nodup →
    m.active_jobs.length ≤ m.max_concurrent_jobs →
    (keysMatch (runOps m ops).active_jobs ∧
     ((runOps m ops).active_jobs.map Prod.fst).Nodup ∧
     (runOps m ops).active_jobs.length ≤
       (runOps m ops).max_concurrent_jobs ∧
     (runOps m ops).max_concurrent_jobs = m.max_concurrent_jobs) := by
  intro ops
  induction ops with
  | nil =>
      intro m h1 h2 h3
      exact ⟨h1, h2, h3, rfl⟩
  | cons op rest ih =>
      intro m h1 h2 h3
      have hs := step_wf m op h1 h2 h3
      have hr := ih (step m op) hs.1 hs.2.1 hs.2.2.1
      exact ⟨hr.1, hr.2.1, hr.2.2.1, hr.2.2.2.trans hs.2.2.2⟩

/-- **C2.**  At every observation point of any trace from a fresh manager —
in particular at the end of every `update_status` tick, and after every
`add_job` — the active set holds at most `max_concurrent_jobs` jobs (the pool
capacity, which the manager itself never changes). -/
theorem C2_active_le_capacity (maxc maxr : Nat) (ops : List Op) :
    (runOps (JobManager.init maxc maxr) ops).active_jobs.length ≤
      (runOps (JobManager.init maxc maxr) ops).max_concurrent_jobs ∧
    (runOps (JobManager.init maxc maxr) ops).max_concurrent_jobs = maxc := by
  have h := runOps_wf ops (JobManager.init maxc maxr)
    (fun p hp => absurd hp (List.not_mem_nil p))
    (by simp [JobManager.init])
    (by simp [JobManager.init])
  exact ⟨h.2.2.1, h.2.2.2⟩

/-! ## Retry-budget invariant (claim C3 machinery) -/

theorem poll_loop_rinv (now : Nat) (polls : PollOracle) :
    ∀ (js : List Job) (m : JobManager), RInv m →
      RInv (poll_loop now polls m js).1 := by
  intro js
  induction js with
  | nil => intro m h; exact h
  | cons job rest ih =>
      intro m h
      rcases hc : job.check_status now (polls job.job_id).1
          (polls job.job_id).2 with e | ⟨st, j⟩
      · rw [poll_loop_cons_error now polls m job rest e hc]
        exact h
      · rw [poll_loop_cons_ok now polls m job rest st j hc]
        by_cases h1 : st = JobStatus.COMPLETED
        · rw [if_pos h1]
          refine ih _ (fun id => ?_)
          show (alist.get (alist.erase m.retry_counts j.job_id) id).getD 0 ≤
            m.max_retries
          by_cases hid : j.job_id = id
          · rw [← hid, alist.get_erase_self]
            simp
          · rw [alist.get_erase_other _ _ _ hid]
            exact h id
        · rw [if_neg h1]
          by_cases h2 : st = JobStatus.FAILED
          · rw [if_pos h2]
            by_cases hrc : (nlist.get m.retry_counts j.job_id).getD 0 <
                m.max_retries
            · rw [handle_failed_requeue
                { m with active_jobs := alist.set m.active_jobs j.job_id j } j
                hrc]
              refine ih _ (fun id => ?_)
              show (alist.get (alist.set m.retry_counts j.job_id
                ((alist.get m.retry_counts j.job_id).getD 0 + 1)) id).getD 0 ≤
                m.max_retries
              by_cases hid : j.job_id = id
              · rw [← hid, alist.get_set_self]
                have hrc' : (alist.get m.retry_counts j.job_id).getD 0 <
                  m.max_retries := hrc
                show (alist.get m.retry_counts j.job_id).getD 0 + 1 ≤
                  m.max_retries
                omega
              · rw [alist.get_set_other _ _ _ _ hid]
                exact h id
            · rw [handle_failed_exhaust
                { m with active_jobs := alist.set m.active_jobs j.job_id j } j
                hrc]
              refine ih _ (fun id => ?_)
              show (alist.get (alist.erase m.retry_counts j.job_id) id).getD 0 ≤
                m.max_retries
              by_cases hid : j.job_id = id
              · rw [← hid, alist.get_erase_self]
                simp
              · rw [alist.get_erase_other _ _ _ hid]
                exact h id
          · rw [if_neg h2]
            exact ih _ (fun id => h id)

theorem add_job_retry (m : JobManager) (job_id sp : String) (now : Nat)
    (res : Option String) :
    (m.add_job job_id sp now res).2.retry_counts = m.retry_counts ∧
    (m.add_job job_id sp now res).2.max_retries = m.max_retries := by
  by_cases hdup : alist.contains m.active_jobs job_id = true ∨
      alist.contains m.completed_jobs job_id = true
  · simp [JobManager.add_job, hdup]
  · by_cases hcap : m.active_jobs.length < m.max_concurrent_jobs <;>
      rcases res with _ | sid <;>
        simp [JobManager.add_job, hdup, hcap, JobManager.submit_job, Job.submit]

theorem step_rinv (m : JobManager) (op : Op) (h : RInv m) :
    RInv (step m op) ∧ (step m op).max_retries = m.max_retries := by
  cases op with
  | add job_id sp now res =>
      have ha := add_job_retry m job_id sp now res
      dsimp only [step]
      refine ⟨fun id => ?_, ha.2⟩
      show (nlist.get (m.add_job job_id sp now res).2.retry_counts id).getD 0 ≤
        (m.add_job job_id sp now res).2.max_retries
      rw [ha.1, ha.2]
      exact h id
  | tick now polls submits =>
      dsimp only [step]
      unfold JobManager.update_status
      have hp := poll_loop_rinv now polls
        (m.active_jobs.map (fun p => p.2)) m h
      have hc := poll_loop_config now polls
        (m.active_jobs.map (fun p => p.2)) m
      rcases hr : poll_loop now polls m (m.active_jobs.map (fun p => p.2))
        with ⟨m1, err⟩
      rw [hr] at hp hc ⊢
      rcases err with _ | e <;> dsimp only
      · have hf := fill_loop_config now submits m1.pending_jobs.length m1
        refine ⟨fun id => ?_, hf.2.1.trans hc.2⟩
        show (nlist.get
          (fill_loop now submits m1.pending_jobs.length m1).1.retry_counts
          id).getD 0 ≤ _
        rw [hf.2.2.1, hf.2.1]
        exact hp id
      · exact ⟨hp, hc.2⟩
  | cancelAll now oks =>
      exact ⟨fun id => h id, rfl⟩

theorem runOps_rinv : ∀ (ops : List Op) (m : JobManager), RInv m →
    RInv (runOps m ops) ∧ (runOps m ops).max_retries = m.max_retries := by
  intro ops
  induction ops with
  | nil => intro m h; exact ⟨h, rfl⟩
  | cons op rest ih =>
      intro m h
      have hs := step_rinv m op h
      have hr := ih (step m op) hs.1
      exact ⟨hr.1, hr.2.trans hs.2⟩

/-- **C3.**  Recorded retry counts never exceed `max_retries` at any
observation point of any trace; a runtime failure handled while the counter
equals `max_retries` moves the job to the failed set (not back to the
backlog) and discards the counter; and in the concrete `max_retries = 2`
scenario job D is requeued with counter 1 then 2 on its first two failures
(being resubmitted by the same tick's fill phase each time) and lands in the
failed set, out of the backlog and the active set, on the third. -/
theorem C3_retry_bound :
    (∀ (maxc maxr : Nat) (ops : List Op) (id : String),
        (nlist.get (runOps (JobManager.init maxc maxr) ops).retry_counts
            id).getD 0 ≤ maxr) ∧
    (∀ (m : JobManager) (job : Job),
        (nlist.get m.retry_counts job.job_id).getD 0 = m.max_retries →
        (alist.contains (m.handle_failed_job job).failed_jobs job.job_id =
           true ∧
         (m.handle_failed_job job).pending_jobs = m.pending_jobs ∧
         nlist.get (m.handle_failed_job job).retry_counts job.job_id =
           none)) ∧
    (nlist.get (c3m 2).retry_counts "D" = some 1 ∧
     alist.contains (c3m 2).active_jobs "D" = true ∧
     nlist.get (c3m 3).retry_counts "D" = some 2 ∧
     alist.contains (c3m 3).active_jobs "D" = true ∧
     alist.contains (c3m 4).failed_jobs "D" = true ∧
     (c3m 4).pending_jobs = [] ∧
     alist.contains (c3m 4).active_jobs "D" = false) := by
  refine ⟨?_, ?_, by decide⟩
  · intro maxc maxr ops id
    have h := runOps_rinv ops (JobManager.init maxc maxr)
      (fun id' => by simp [JobManager.init, nlist.get, alist.get])
    have := h.1 id
    rw [h.2] at this
    exact this
  · intro m job hrc
    have hnlt : ¬ (nlist.get m.retry_counts job.job_id).getD 0 <
        m.max_retries := by omega
    rw [handle_failed_exhaust m job hnlt]
    refine ⟨alist.contains_set_self _ _ _, rfl, alist.get_erase_self _ _⟩

/-- Witness for `C3_retry_bound`: the invariant evaluated on the concrete C3
trace, and the at-bound transition evaluated at the state after D's second
requeue. -/
theorem C3_retry_bound_witness :
    (nlist.get (c3m 4).retry_counts "D").getD 0 ≤ 2 ∧
    alist.contains
      ((c3m 3).handle_failed_job (runningJob "D")).failed_jobs "D" = true := by
  have h := C3_retry_bound
  exact ⟨h.1 1 2 (c3Ops.take 4) "D",
    (h.2.1 (c3m 3) (runningJob "D") (by decide)).1⟩

/-! ## Backlog ordering (claim C5 machinery) -/

theorem fill_loop_attempts_prefix (now : Nat) (submits : SubmitOracle) :
    ∀ (fuel : Nat) (m : JobManager),
      ∃ k, (fill_loop now submits fuel m).2 = m.pending_jobs.take k := by
  intro fuel
  induction fuel with
  | zero => intro m; exact ⟨0, rfl⟩
  | succ fuel ih =>
      intro m
      by_cases hcap : m.active_jobs.length < m.max_concurrent_jobs
      · rcases hp : m.pending_jobs with _ | ⟨next_job, rest⟩
        · rw [fill_loop_nil now submits (fuel + 1) m hp]
          exact ⟨0, rfl⟩
        · rcases hres : submits next_job.job_id with _ | sid
          · rw [fill_loop_cons_fail now submits fuel m next_job rest hp hcap
              hres]
            obtain ⟨k, hk⟩ := ih
              { m with pending_jobs := rest,
                       failed_jobs := alist.set m.failed_jobs next_job.job_id
                         { next_job with status := .FAILED } }
            refine ⟨k + 1, ?_⟩
            rw [List.take_succ_cons]
            exact congrArg (next_job :: ·) (by simpa using hk)
          · rw [fill_loop_cons_ok now submits fuel m next_job rest sid hp hcap
              hres]
            obtain ⟨k, hk⟩ := ih
              { m with pending_jobs := rest,
                       active_jobs := alist.set m.active_jobs next_job.job_id
                         { next_job with slurm_id := some sid,
                                         status := .RUNNING,
                                         start_time := some now } }
            refine ⟨k + 1, ?_⟩
            rw [List.take_succ_cons]
            exact congrArg (next_job :: ·) (by simpa using hk)
      · rw [fill_loop_stop now submits (fuel + 1) m hcap]
        exact ⟨0, rfl⟩

/-- **C5.**  (1) The sequence of jobs the fill phase pops and hands to
`_submit_job` is a prefix of the backlog in order, so a job ahead of another
in the backlog is submitted no later than it — never-submitted jobs added in
order A then B are served FIFO; (2) `add_job` appends a job that must wait
for capacity at the BACK of the backlog; (3) a retry-eligible failure
reinserts the failed job at the FRONT of the backlog, hence ahead of every
never-yet-submitted job waiting in it at that tick. -/
theorem C5_backlog_order :
    (∀ (now : Nat) (submits : SubmitOracle) (fuel : Nat) (m : JobManager),
        ∃ k, (fill_loop now submits fuel m).2 = m.pending_jobs.take k) ∧
    (∀ (m : JobManager) (job_id sp : String) (now : Nat)
        (res : Option String),
        alist.contains m.active_jobs job_id = false →
        alist.contains m.completed_jobs job_id = false →
        ¬ m.active_jobs.length < m.max_concurrent_jobs →
        (m.add_job job_id sp now res).2.pending_jobs =
          m.pending_jobs ++ [Job.new job_id sp]) ∧
    (∀ (m : JobManager) (job : Job),
        (nlist.get m.retry_counts job.job_id).getD 0 < m.max_retries →
        (m.handle_failed_job job).pending_jobs = job :: m.pending_jobs) := by
  refine ⟨fun now submits fuel m =>
    fill_loop_attempts_prefix now submits fuel m, ?_, ?_⟩
  · intro m job_id sp now res h1 h2 hcap
    simp [JobManager.add_job, h1, h2, hcap]
  · intro m job h
    rw [handle_failed_requeue m job h]

/-- Witness for `C5_backlog_order`: the append-at-back at a full manager, and
the front reinsertion at the C7 scenario state. -/
theorem C5_backlog_order_witness :
    ((c7State.add_job "A" "a.py" 0 (some "9")).2.pending_jobs =
        c7State.pending_jobs ++ [Job.new "A" "a.py"]) ∧
    ((c7State.handle_failed_job (runningJob "F")).pending_jobs =
        runningJob "F" :: c7State.pending_jobs) := by
  have h := C5_backlog_order
  exact ⟨h.2.1 c7State "A" "a.py" 0 (some "9") (by decide) (by decide)
      (by decide),
    h.2.2 c7State (runningJob "F") (by decide)⟩

/-! ## Submission failures under arbitrary backend answers (claim C4) -/

theorem fill_loop_failed_mono (now : Nat) (submits : SubmitOracle) :
    ∀ (fuel : Nat) (m : JobManager) (id : String),
      alist.contains m.failed_jobs id = true →
      alist.contains (fill_loop now submits fuel m).1.failed_jobs id =
        true := by
  intro fuel
  induction fuel with
  | zero =>
      intro m id h
      exact h
  | succ fuel ih =>
      intro m id h
      by_cases hcap : m.active_jobs.length < m.max_concurrent_jobs
      · rcases hp : m.pending_jobs with _ | ⟨next_job, rest⟩
        · rw [fill_loop_nil now submits (fuel + 1) m hp]
          exact h
        · rcases hres : submits next_job.job_id with _ | sid
          · rw [fill_loop_cons_fail now submits fuel m next_job rest hp hcap
              hres]
            exact ih _ id (by
              simpa using alist.contains_set_of m.failed_jobs next_job.job_id
                id { next_job with status := .FAILED } h)
          · rw [fill_loop_cons_ok now submits fuel m next_job rest sid hp hcap
              hres]
            exact ih _ id h
      · rw [fill_loop_stop now submits (fuel + 1) m hcap]
        exact h

theorem fill_loop_attempt_failures (now : Nat) (submits : SubmitOracle) :
    ∀ (fuel : Nat) (m : JobManager),
      ∀ j ∈ (fill_loop now submits fuel m).2, submits j.job_id = none →
        alist.contains (fill_loop now submits fuel m).1.failed_jobs
          j.job_id = true := by
  intro fuel
  induction fuel with
  | zero =>
      intro m j hj _
      rw [fill_loop_zero] at hj
      simp at hj
  | succ fuel ih =>
      intro m j hj hjn
      by_cases hcap : m.active_jobs.length < m.max_concurrent_jobs
      · rcases hp : m.pending_jobs with _ | ⟨next_job, rest⟩
        · rw [fill_loop_nil now submits (fuel + 1) m hp] at hj
          simp at hj
        · rcases hres : submits next_job.job_id with _ | sid
          · rw [fill_loop_cons_fail now submits fuel m next_job rest hp hcap
              hres] at hj ⊢
            dsimp only at hj ⊢
            rcases List.mem_cons.mp hj with rfl | hj2
            · exact fill_loop_failed_mono now submits fuel _ j.job_id (by
                simpa using alist.contains_set_self m.failed_jobs j.job_id
                  { j with status := .FAILED })
            · exact ih _ j hj2 hjn
          · rw [fill_loop_cons_ok now submits fuel m next_job rest sid hp hcap
              hres] at hj ⊢
            dsimp only at hj ⊢
            rcases List.mem_cons.mp hj with rfl | hj2
            · exact Option.noConfusion (hres.symm.trans hjn)
            · exact ih _ j hj2 hjn
      · rw [fill_loop_stop now submits (fuel + 1) m hcap] at hj
        simp at hj

theorem fill_loop_active_avoid (now : Nat) (submits : SubmitOracle) :
    ∀ (fuel : Nat) (m : JobManager) (id : String),
      submits id = none →
      alist.contains m.active_jobs id = false →
      alist.contains (fill_loop now submits fuel m).1.active_jobs id =
        false := by
  intro fuel
  induction fuel with
  | zero =>
      intro m id _ h
      exact h
  | succ fuel ih =>
      intro m id hidn h
      by_cases hcap : m.active_jobs.length < m.max_concurrent_jobs
      · rcases hp : m.pending_jobs with _ | ⟨next_job, rest⟩
        · rw [fill_loop_nil now submits (fuel + 1) m hp]
          exact h
        · rcases hres : submits next_job.job_id with _ | sid
          · rw [fill_loop_cons_fail now submits fuel m next_job rest hp hcap
              hres]
            exact ih _ id hidn h
          · rw [fill_loop_cons_ok now submits fuel m next_job rest sid hp hcap
              hres]
            have hne : next_job.job_id ≠ id := by
              intro hEq
              rw [hEq, hidn] at hres
              cases hres
            refine ih _ id hidn ?_
            show alist.contains
              (alist.set m.active_jobs next_job.job_id
                { next_job with slurm_id := some sid, status := .RUNNING,
                                start_time := some now }) id = false
            rw [contains_set_other _ _ _ _ hne]
            exact h
      · rw [fill_loop_stop now submits (fuel + 1) m hcap]
        exact h

/-- **C4, amended.**  For any mix of backend answers within a tick: the fill
phase never touches the retry counters, so a submission failure consumes no
retry budget; every job the fill phase pops whose backend submission fails is
recorded in the failed set (with status FAILED — `job.submit()`'s in-place
mutation), regardless of how the other submissions of the same tick fare; and
an identifier whose submissions fail and that is not already active never
enters the active set during the fill phase.  By contrast, a job whose
*immediate* submission from `add_job` fails is not recorded anywhere:
`add_job` returns `False` and leaves the manager unchanged, so that job ends
up in no collection (rather than the failed set the claim describes). -/
theorem C4_submission_failure_amended :
    (∀ (m : JobManager) (job_id sp : String) (now : Nat),
        alist.contains m.active_jobs job_id = false →
        alist.contains m.completed_jobs job_id = false →
        m.active_jobs.length < m.max_concurrent_jobs →
        m.add_job job_id sp now none = (false, m)) ∧
    (∀ (m : JobManager) (now fuel : Nat) (submits : SubmitOracle),
        (fill_loop now submits fuel m).1.retry_counts = m.retry_counts ∧
        (∀ j ∈ (fill_loop now submits fuel m).2, submits j.job_id = none →
          alist.contains (fill_loop now submits fuel m).1.failed_jobs
            j.job_id = true) ∧
        (∀ id, submits id = none →
          alist.contains m.active_jobs id = false →
          alist.contains (fill_loop now submits fuel m).1.active_jobs id =
            false)) := by
  constructor
  · intro m job_id sp now ha hc hcap
    simp [JobManager.add_job, ha, hc, hcap, JobManager.submit_job, Job.submit]
  · intro m now fuel submits
    exact ⟨(fill_loop_config now submits fuel m).2.2.1,
      fill_loop_attempt_failures now submits fuel m,
      fill_loop_active_avoid now submits fuel m⟩

/-- Witness for `C4_submission_failure_amended`: the add-path at a fresh
manager, and the fill-path on a mixed tick in which E's submission succeeds
while G's is rejected — G lands in the failed set with no retry count spent
and never enters the active set, while E becomes active. -/
theorem C4_submission_failure_amended_witness :
    (JobManager.init 1 3).add_job "G" "g.py" 0 none =
      (false, JobManager.init 1 3) ∧
    (fill_loop 0 c4MixSubmits 2 c4MixState).1.retry_counts =
      c4MixState.retry_counts ∧
    alist.contains (fill_loop 0 c4MixSubmits 2 c4MixState).1.failed_jobs
      "G" = true ∧
    alist.contains (fill_loop 0 c4MixSubmits 2 c4MixState).1.active_jobs
      "G" = false ∧
    alist.contains (fill_loop 0 c4MixSubmits 2 c4MixState).1.active_jobs
      "E" = true := by
  have h := C4_submission_failure_amended
  have h2 := h.2 c4MixState 0 2 c4MixSubmits
  refine ⟨h.1 (JobManager.init 1 3) "G" "g.py" 0 (by decide) (by decide)
      (by decide), h2.1, ?_, ?_, by decide⟩
  · simpa using h2.2.1 (Job.new "G" "g.py") (by decide) (by decide)
  · exact h2.2.2 "G" (by decide) (by decide)

/-! ## The exactly-one-collection invariant (claim C1 machinery) -/

theorem contains_eq_false_of_keyCount_zero {α : Type} (l : List (String × α))
    (k : String) (h : keyCount l k = 0) : alist.contains l k = false := by
  rcases hb : alist.contains l k
  · rfl
  · have := (contains_iff_keyCount l k).mp hb
    omega

theorem concentrate_active (m : JobManager) (seen : List String) (k : String)
    (hc : ∀ id, idCount m id = if id ∈ seen then 1 else 0)
    (h : alist.contains m.active_jobs k = true) :
    keyCount m.active_jobs k = 1 ∧ pendCount m.pending_jobs k = 0 ∧
    keyCount m.completed_jobs k = 0 ∧ keyCount m.failed_jobs k = 0 := by
  have h1 : 0 < keyCount m.active_jobs k := (contains_iff_keyCount _ _).mp h
  have h2 := hc k
  unfold idCount at h2
  by_cases hk : k ∈ seen
  · rw [if_pos hk] at h2
    omega
  · rw [if_neg hk] at h2
    omega

theorem concentrate_pending (m : JobManager) (seen : List String) (k : String)
    (hc : ∀ id, idCount m id = if id ∈ seen then 1 else 0)
    (h : 0 < pendCount m.pending_jobs k) :
    keyCount m.active_jobs k = 0 ∧ pendCount m.pending_jobs k = 1 ∧
    keyCount m.completed_jobs k = 0 ∧ keyCount m.failed_jobs k = 0 := by
  have h2 := hc k
  unfold idCount at h2
  by_cases hk : k ∈ seen
  · rw [if_pos hk] at h2
    omega
  · rw [if_neg hk] at h2
    omega

theorem mem_seen_of_active (m : JobManager) (seen : List String) (k : String)
    (hc : ∀ id, idCount m id = if id ∈ seen then 1 else 0)
    (h : 0 < keyCount m.active_jobs k) : k ∈ seen := by
  by_contra hns
  have h2 := hc k
  rw [if_neg hns] at h2
  unfold idCount at h2
  omega

theorem mem_seen_of_pending (m : JobManager) (seen : List String) (k : String)
    (hc : ∀ id, idCount m id = if id ∈ seen then 1 else 0)
    (h : 0 < pendCount m.pending_jobs k) : k ∈ seen := by
  by_contra hns
  have h2 := hc k
  rw [if_neg hns] at h2
  unfold idCount at h2
  omega

theorem exactlyOne_nodup_keys (m : JobManager) (seen : List String)
    (h : ExactlyOne m seen) : (m.active_jobs.map Prod.fst).Nodup := by
  refine nodup_keys_of_counts _ (fun id => ?_)
  have h2 := h.1 id
  unfold idCount at h2
  by_cases hk : id ∈ seen
  · rw [if_pos hk] at h2
    omega
  · rw [if_neg hk] at h2
    omega

theorem poll_loop_count (now : Nat) (polls : PollOracle) :
    ∀ (js : List Job) (m : JobManager) (seen : List String),
      ExactlyOne m seen →
      (js.map Job.job_id).Nodup →
      (∀ j ∈ js, alist.contains m.active_jobs j.job_id = true) →
      ExactlyOne (poll_loop now polls m js).1 seen := by
  intro js
  induction js with
  | nil =>
      intro m seen h _ _
      exact h
  | cons job rest ih =>
      intro m seen h hjnd hcont
      rcases hc : job.check_status now (polls job.job_id).1
          (polls job.job_id).2 with e | ⟨st, j⟩
      · rw [poll_loop_cons_error now polls m job rest e hc]
        exact h
      · rw [poll_loop_cons_ok now polls m job rest st j hc]
        have hjid : j.job_id = job.job_id :=
          Job.check_status_ok_job_id job now _ _ st j hc
        have hcj : alist.contains m.active_jobs j.job_id = true := by
          rw [hjid]
          exact hcont job (List.mem_cons_self _ _)
        have hconc := concentrate_active m seen j.job_id h.1 hcj
        have hseen : j.job_id ∈ seen :=
          mem_seen_of_active m seen j.job_id h.1 (by omega)
        have hm1counts : ∀ id,
            keyCount (alist.set m.active_jobs j.job_id j) id =
              keyCount m.active_jobs id :=
          fun id => keyCount_set_contains _ _ _ _ hcj
        have hm1 : ExactlyOne
            { m with active_jobs := alist.set m.active_jobs j.job_id j }
            seen := by
          refine ⟨fun id => ?_, keysMatch_set _ _ _ h.2 rfl⟩
          show keyCount (alist.set m.active_jobs j.job_id j) id +
            pendCount m.pending_jobs id + keyCount m.completed_jobs id +
            keyCount m.failed_jobs id = _
          rw [hm1counts id]
          exact h.1 id
        have hrest : ∀ j' ∈ rest,
            alist.contains (alist.set m.active_jobs j.job_id j) j'.job_id =
              true := fun j' hj' =>
          alist.contains_set_of _ _ _ _
            (hcont j' (List.mem_cons_of_mem _ hj'))
        have hne : ∀ j' ∈ rest, j.job_id ≠ j'.job_id := by
          intro j' hj' hEq
          rcases List.nodup_cons.mp hjnd with ⟨hnotin, _⟩
          rw [hjid] at hEq
          exact hnotin (hEq ▸ List.mem_map_of_mem Job.job_id hj')
        have hrnd : (rest.map Job.job_id).Nodup := (List.nodup_cons.mp hjnd).2
        have hcc : alist.contains m.completed_jobs j.job_id = false :=
          contains_eq_false_of_keyCount_zero _ _ hconc.2.2.1
        have hcf : alist.contains m.failed_jobs j.job_id = false :=
          contains_eq_false_of_keyCount_zero _ _ hconc.2.2.2
        by_cases h1 : st = JobStatus.COMPLETED
        · rw [if_pos h1]
          refine ih _ seen ⟨fun id => ?_, keysMatch_erase _ _ hm1.2⟩ hrnd
            (fun j' hj' => by
              show alist.contains
                (alist.erase (alist.set m.active_jobs j.job_id j) j.job_id)
                j'.job_id = true
              rw [contains_erase_other _ _ _ (hne j' hj')]
              exact hrest j' hj')
          show keyCount
              (alist.erase (alist.set m.active_jobs j.job_id j) j.job_id) id +
            pendCount m.pending_jobs id +
            keyCount (alist.set m.completed_jobs j.job_id j) id +
            keyCount m.failed_jobs id = _
          rw [keyCount_erase, keyCount_set_new _ _ _ _ hcc]
          by_cases hid : j.job_id = id
          · rw [if_pos hid, if_pos hid, ← hid, if_pos hseen]
            have := hconc.2.1
            have := hconc.2.2.1
            have := hconc.2.2.2
            omega
          · rw [if_neg hid, if_neg hid, hm1counts id]
            have hbase := h.1 id
            unfold idCount at hbase
            rw [← hbase]
            omega
        · rw [if_neg h1]
          by_cases h2 : st = JobStatus.FAILED
          · rw [if_pos h2]
            by_cases hrc : (nlist.get m.retry_counts j.job_id).getD 0 <
                m.max_retries
            · rw [handle_failed_requeue
                { m with active_jobs := alist.set m.active_jobs j.job_id j } j
                hrc]
              refine ih _ seen ⟨fun id => ?_, keysMatch_erase _ _ hm1.2⟩ hrnd
                (fun j' hj' => by
                  show alist.contains
                    (alist.erase (alist.set m.active_jobs j.job_id j)
                      j.job_id) j'.job_id = true
                  rw [contains_erase_other _ _ _ (hne j' hj')]
                  exact hrest j' hj')
              show keyCount
                  (alist.erase (alist.set m.active_jobs j.job_id j) j.job_id)
                  id +
                pendCount (j :: m.pending_jobs) id +
                keyCount m.completed_jobs id +
                keyCount m.failed_jobs id = _
              rw [keyCount_erase, pendCount_cons]
              by_cases hid : j.job_id = id
              · rw [if_pos hid, if_pos hid, ← hid, if_pos hseen]
                have := hconc.2.1
                have := hconc.2.2.1
                have := hconc.2.2.2
                omega
              · rw [if_neg hid, if_neg hid, hm1counts id]
                have hbase := h.1 id
                unfold idCount at hbase
                rw [← hbase]
                omega
            · rw [handle_failed_exhaust
                { m with active_jobs := alist.set m.active_jobs j.job_id j } j
                hrc]
              refine ih _ seen ⟨fun id => ?_, keysMatch_erase _ _ hm1.2⟩ hrnd
                (fun j' hj' => by
                  show alist.contains
                    (alist.erase (alist.set m.active_jobs j.job_id j)
                      j.job_id) j'.job_id = true
                  rw [contains_erase_other _ _ _ (hne j' hj')]
                  exact hrest j' hj')
              show keyCount
                  (alist.erase (alist.set m.active_jobs j.job_id j) j.job_id)
                  id +
                pendCount m.pending_jobs id +
                keyCount m.completed_jobs id +
                keyCount (alist.set m.failed_jobs j.job_id j) id = _
              rw [keyCount_erase, keyCount_set_new _ _ _ _ hcf]
              by_cases hid : j.job_id = id
              · rw [if_pos hid, if_pos hid, ← hid, if_pos hseen]
                have := hconc.2.1
                have := hconc.2.2.1
                have := hconc.2.2.2
                omega
              · rw [if_neg hid, if_neg hid, hm1counts id]
                have hbase := h.1 id
                unfold idCount at hbase
                rw [← hbase]
                omega
          · rw [if_neg h2]
            exact ih _ seen hm1 hrnd hrest

theorem pendCount_nil (id : String) : pendCount [] id = 0 := rfl

theorem fill_loop_count (now : Nat) (submits : SubmitOracle) :
    ∀ (fuel : Nat) (m : JobManager) (seen : List String),
      ExactlyOne m seen → ExactlyOne (fill_loop now submits fuel m).1 seen := by
  intro fuel
  induction fuel with
  | zero =>
      intro m seen h
      exact h
  | succ fuel ih =>
      intro m seen h
      by_cases hcap : m.active_jobs.length < m.max_concurrent_jobs
      · rcases hp : m.pending_jobs with _ | ⟨next_job, rest⟩
        · rw [fill_loop_nil now submits (fuel + 1) m hp]
          exact h
        · have hpend : 0 < pendCount m.pending_jobs next_job.job_id := by
            rw [hp, pendCount_cons, if_pos rfl]
            omega
          have hconc := concentrate_pending m seen next_job.job_id h.1 hpend
          have hseen : next_job.job_id ∈ seen :=
            mem_seen_of_pending m seen next_job.job_id h.1 hpend
          have hprest : pendCount rest next_job.job_id = 0 := by
            have h2 := hconc.2.1
            rw [hp, pendCount_cons, if_pos rfl] at h2
            omega
          have hca : alist.contains m.active_jobs next_job.job_id = false :=
            contains_eq_false_of_keyCount_zero _ _ hconc.1
          have hcf : alist.contains m.failed_jobs next_job.job_id = false :=
            contains_eq_false_of_keyCount_zero _ _ hconc.2.2.2
          rcases hres : submits next_job.job_id with _ | sid
          · rw [fill_loop_cons_fail now submits fuel m next_job rest hp hcap
              hres]
            refine ih _ seen ⟨fun id => ?_, h.2⟩
            show keyCount m.active_jobs id + pendCount rest id +
              keyCount m.completed_jobs id +
              keyCount (alist.set m.failed_jobs next_job.job_id
                { next_job with status := .FAILED }) id = _
            rw [keyCount_set_new _ _ _ _ hcf]
            by_cases hid : next_job.job_id = id
            · rw [if_pos hid, ← hid, if_pos hseen]
              have := hconc.1
              have := hconc.2.2.1
              have := hconc.2.2.2
              omega
            · rw [if_neg hid]
              have hbase := h.1 id
              unfold idCount at hbase
              rw [hp, pendCount_cons, if_neg hid] at hbase
              rw [← hbase]
              omega
          · rw [fill_loop_cons_ok now submits fuel m next_job rest sid hp hcap
              hres]
            refine ih _ seen ⟨fun id => ?_, keysMatch_set _ _ _ h.2 rfl⟩
            show keyCount (alist.set m.active_jobs next_job.job_id
                { next_job with slurm_id := some sid, status := .RUNNING,
                                start_time := some now }) id +
              pendCount rest id + keyCount m.completed_jobs id +
              keyCount m.failed_jobs id = _
            rw [keyCount_set_new _ _ _ _ hca]
            by_cases hid : next_job.job_id = id
            · rw [if_pos hid, ← hid, if_pos hseen]
              have := hconc.1
              have := hconc.2.2.1
              have := hconc.2.2.2
              omega
            · rw [if_neg hid]
              have hbase := h.1 id
              unfold idCount at hbase
              rw [hp, pendCount_cons, if_neg hid] at hbase
              rw [← hbase]
              omega
      · rw [fill_loop_stop now submits (fuel + 1) m hcap]
        exact h

theorem add_job_count (m : JobManager) (seen : List String)
    (job_id sp : String) (now : Nat) (sid : String)
    (h : ExactlyOne m seen) (hfresh : job_id ∉ seen) :
    (m.add_job job_id sp now (some sid)).1 = true ∧
    ExactlyOne (m.add_job job_id sp now (some sid)).2 (job_id :: seen) := by
  have hz := h.1 job_id
  rw [if_neg hfresh] at hz
  unfold idCount at hz
  have hza : alist.contains m.active_jobs job_id = false :=
    contains_eq_false_of_keyCount_zero _ _ (by omega)
  have hzc : alist.contains m.completed_jobs job_id = false :=
    contains_eq_false_of_keyCount_zero _ _ (by omega)
  have hdup : ¬ (alist.contains m.active_jobs job_id = true ∨
      alist.contains m.completed_jobs job_id = true) := by
    rw [hza, hzc]
    simp
  unfold JobManager.add_job
  rw [if_neg hdup]
  by_cases hcap : m.active_jobs.length < m.max_concurrent_jobs
  · rw [if_pos hcap]
    refine ⟨rfl, fun id => ?_, ?_⟩
    · show keyCount (alist.set m.active_jobs job_id
          { job_id := job_id, script_path := sp, slurm_id := some sid,
            status := .RUNNING, start_time := some now, end_time := none })
          id +
        pendCount m.pending_jobs id + keyCount m.completed_jobs id +
        keyCount m.failed_jobs id = _
      rw [keyCount_set_new _ _ _ _ hza]
      by_cases hid : job_id = id
      · rw [if_pos hid, ← hid, if_pos (List.mem_cons_self _ _)]
        omega
      · rw [if_neg hid]
        have hbase := h.1 id
        unfold idCount at hbase
        by_cases hm2 : id ∈ seen
        · rw [if_pos (List.mem_cons_of_mem _ hm2)]
          rw [if_pos hm2] at hbase
          omega
        · rw [if_neg (fun hc => (List.mem_cons.mp hc).elim
            (fun hh => hid hh.symm) hm2)]
          rw [if_neg hm2] at hbase
          omega
    · exact keysMatch_set _ _ _ h.2 rfl
  · rw [if_neg hcap]
    refine ⟨rfl, fun id => ?_, h.2⟩
    show keyCount m.active_jobs id +
      pendCount (m.pending_jobs ++ [Job.new job_id sp]) id +
      keyCount m.completed_jobs id + keyCount m.failed_jobs id = _
    rw [pendCount_append, pendCount_cons, pendCount_nil]
    show keyCount m.active_jobs id + (pendCount m.pending_jobs id +
      ((if job_id = id then 1 else 0) + 0)) + keyCount m.completed_jobs id +
      keyCount m.failed_jobs id = _
    by_cases hid : job_id = id
    · rw [if_pos hid, ← hid, if_pos (List.mem_cons_self _ _)]
      omega
    · rw [if_neg hid]
      have hbase := h.1 id
      unfold idCount at hbase
      by_cases hm2 : id ∈ seen
      · rw [if_pos (List.mem_cons_of_mem _ hm2)]
        rw [if_pos hm2] at hbase
        omega
      · rw [if_neg (fun hc => (List.mem_cons.mp hc).elim
          (fun hh => hid hh.symm) hm2)]
        rw [if_neg hm2] at hbase
        omega

theorem update_status_count (m : JobManager) (seen : List String) (now : Nat)
    (polls : PollOracle) (submits : SubmitOracle)
    (h : ExactlyOne m seen) :
    ExactlyOne (m.update_status now polls submits).1 seen := by
  have hnd := exactlyOne_nodup_keys m seen h
  have hsnap : ((m.active_jobs.map (fun p => p.2)).map Job.job_id).Nodup := by
    rw [snapshot_ids m.active_jobs h.2]
    exact hnd
  have hp := poll_loop_count now polls (m.active_jobs.map (fun p => p.2)) m
    seen h hsnap (snapshot_contains m h.2)
  unfold JobManager.update_status
  rcases hr : poll_loop now polls m (m.active_jobs.map (fun p => p.2))
    with ⟨m1, err⟩
  rw [hr] at hp ⊢
  rcases err with _ | e <;> dsimp only
  · exact fill_loop_count now submits m1.pending_jobs.length m1 seen hp
  · exact hp

theorem runOps_count : ∀ (ops : List Op) (m : JobManager) (seen : List String),
    goodTrace seen ops → ExactlyOne m seen →
    ExactlyOne (runOps m ops) (seenAfter seen ops) := by
  intro ops
  induction ops with
  | nil =>
      intro m seen _ h
      exact h
  | cons op rest ih =>
      intro m seen hg h
      cases op with
      | add job_id sp now res =>
          have hg' : job_id ∉ seen ∧ res.isSome = true ∧
              goodTrace (job_id :: seen) rest := hg
          rcases res with _ | sid
          · simp at hg'
          · have ha := add_job_count m seen job_id sp now sid h hg'.1
            exact ih _ _ hg'.2.2 ha.2
      | tick now polls submits =>
          exact ih _ _ hg (update_status_count m seen now polls submits h)
      | cancelAll now oks =>
          exact False.elim hg

theorem mem_seenAfter : ∀ (ops : List Op) (seen : List String) (id : String),
    id ∈ seenAfter seen ops ↔ id ∈ addedIds ops ∨ id ∈ seen := by
  intro ops
  induction ops with
  | nil =>
      intro seen id
      simp [seenAfter, addedIds]
  | cons op rest ih =>
      intro seen id
      cases op with
      | add job_id sp now res =>
          show id ∈ seenAfter (job_id :: seen) rest ↔
            id ∈ job_id :: addedIds rest ∨ id ∈ seen
          rw [ih]
          simp only [List.mem_cons]
          tauto
      | tick now polls submits =>
          show id ∈ seenAfter seen rest ↔ id ∈ addedIds rest ∨ id ∈ seen
          exact ih seen id
      | cancelAll now oks =>
          show id ∈ seenAfter seen rest ↔ id ∈ addedIds rest ∨ id ∈ seen
          exact ih seen id

/-- **C1, counterexample.**  The claim says every identifier ever accepted by
`add_job` is in exactly one of the four collections at every observation
point.  With capacity 0, job A is accepted into the backlog; a subsequent
`cancel_all_jobs` clears the backlog without recording A anywhere: A is then
in zero of the four collections. -/
theorem C1_counterexample :
    ((JobManager.init 0 3).add_job "A" "a.py" 0 none).1 = true ∧
    idCount ((JobManager.init 0 3).add_job "A" "a.py" 0 none).2 "A" = 1 ∧
    idCount
      (((JobManager.init 0 3).add_job "A" "a.py" 0 none).2.cancel_all_jobs 1
        (fun _ => true)) "A" = 0 := by
  decide

/-- **C1, amended.**  Along any sequence of `add_job` and `update_status`
calls in which every `add_job` uses a previously unused identifier and every
immediately attempted submission succeeds (a *good* trace — `cancel_all_jobs`
excluded), every accepted identifier is in exactly one of {backlog, active,
completed, failed} at every observation point, and every other identifier is
in none.  The exclusions are exactly the failure modes: `cancel_all_jobs`
drops backlog jobs from all collections, a failed immediate submission
records the job nowhere, and re-adding a terminally failed or still-queued
identifier (which `add_job` accepts) duplicates it. -/
theorem C1_exactly_one (maxc maxr : Nat) (ops : List Op)
    (hgood : goodTrace [] ops) (id : String) :
    idCount (runOps (JobManager.init maxc maxr) ops) id =
      if id ∈ addedIds ops then 1 else 0 := by
  have h0 : ExactlyOne (JobManager.init maxc maxr) [] := by
    constructor
    · intro id'
      simp [idCount, keyCount, pendCount, JobManager.init]
    · intro p hp
      exact absurd hp (List.not_mem_nil p)
  have h := runOps_count ops (JobManager.init maxc maxr) [] hgood h0
  rw [h.1 id]
  by_cases hm : id ∈ addedIds ops
  · rw [if_pos hm, if_pos ((mem_seenAfter ops [] id).mpr (Or.inl hm))]
  · rw [if_neg hm, if_neg (fun hc => hm
      (((mem_seenAfter ops [] id).mp hc).resolve_right
        (List.not_mem_nil id)))]

/-- Witness for `C1_exactly_one` on the concrete C3 trace (one accepted job,
three ticks): its identifier counts exactly once, a never-added one counts
zero times. -/
theorem C1_exactly_one_witness :
    idCount (runOps (JobManager.init 1 2) c3Ops) "D" = 1 ∧
    idCount (runOps (JobManager.init 1 2) c3Ops) "X" = 0 := by
  have hg : goodTrace [] c3Ops := by
    refine ⟨by decide, rfl, ?_⟩
    exact trivial
  constructor
  · rw [C1_exactly_one 1 2 c3Ops hg "D", if_pos (by decide)]
  · rw [C1_exactly_one 1 2 c3Ops hg "X", if_neg (by decide)]

end SJM
